import Mathlib

/-!
# The MINIX clipboard driver (ps347277.c)

A shallow embedding of the character driver: the four globals become one
`Store`, every driver entry point becomes a function on stores, and the
outcomes of the calls into the rest of the system (`malloc`,
`sys_safecopyfrom`, `sys_safecopyto`, the data store `ds_*`) are explicit
arguments.  A result `none` stands for an execution whose behaviour C leaves
undefined (a subscript outside the 100-element arrays, a copy that runs past
a buffer).
-/

set_option maxRecDepth 100000

namespace Clipboard

/-- One `char` of payload. -/
abbrev Byte := Fin 256

/-- The macro `MAX_CLIPBOARD_ENTRIES`, defined as 100. -/
def MAX_CLIPBOARD_ENTRIES : Nat := 100

/-- The macro `STATE_WRITE`, defined as 100. -/
def STATE_WRITE : Nat := 100

/-- The macro `DEBUG_CTL`, defined as 1337. -/
def DEBUG_CTL : Nat := 1337

/-- The macro `MAX_LENGTH_ENTRY`, defined as 200. -/
def MAX_LENGTH_ENTRY : Nat := 200

/-- The success code `OK` of the MINIX system headers. -/
def OK : Int := 0

/-- Modelled from the spec: `ENOTTY` is defined by the MINIX errno header, which
is not part of the repository; the spec calls it the unsupported-operation
error.  Drivers are compiled with `_SYSTEM`, where error numbers are negative
(`_SIGN 25`). -/
def ENOTTY : Int := -25

/-- The four globals of the driver: `number_of_active_entries`, `current_index`,
the array `clipboard` of 100 buffer pointers (`none` is `NULL`, `some b` a
buffer holding the bytes `b`) and the array `clipboard_lengths` of 100 ints. -/
structure Store where
  number_of_active_entries : Int
  current_index : Int
  clipboard : Fin 100 → Option (List Byte)
  clipboard_lengths : Fin 100 → Int

/-- Array subscript `a[i]` for an `int` index: the position when `i` lies inside
the 100-element arrays, `none` when the access is out of bounds. -/
def index? (i : Int) : Option (Fin 100) :=
  if h : 0 ≤ i ∧ i < 100 then some ⟨i.toNat, by omega⟩ else none

/-- Conversion of an `int` to a 32-bit unsigned value: the `size_t` of MINIX, and
the `u32_t` of `ds_publish_u32`. -/
def to_size_t (x : Int) : Nat := (x % 4294967296).toNat

/-- Conversion of a 32-bit unsigned value (`size_t`, `u32_t`) to the 32-bit signed
`ssize_t` and `int`. -/
def to_ssize_t (n : Nat) : Int :=
  if n % 4294967296 < 2147483648 then ((n % 4294967296 : Nat) : Int)
  else ((n % 4294967296 : Nat) : Int) - 4294967296

/-- The function `clipboard_open`: returns `OK`. -/
def clipboard_open (s : Store) : Int × Store := (OK, s)

/-- The function `clipboard_close`: returns `OK`. -/
def clipboard_close (s : Store) : Int × Store := (OK, s)

/-- The function `clipboard_write` for a request carrying the payload `p` (`size = p.length`).
`malloc_ok` tells whether `malloc` returns a buffer, `copy_ret` is the return
value of `sys_safecopyfrom`.  The result is the returned `ssize_t` and the
store afterwards. -/
def clipboard_write (s : Store) (p : List Byte) (malloc_ok : Bool) (copy_ret : Int) :
    Option (Int × Store) :=
  if s.number_of_active_entries ≥ (MAX_CLIPBOARD_ENTRIES : Int) then some (-1, s)
  else if p.length > MAX_LENGTH_ENTRY then some (-1, s)
  else
    match index? s.current_index with
    | none => none
    | some k =>
      -- clipboard[current_index] = malloc(sizeof(char) * size);
      if malloc_ok = false then
        some (-1, { s with clipboard := Function.update s.clipboard k none })
      else if copy_ret ≠ OK then
        -- free(clipboard[current_index]); clipboard[current_index] = NULL;
        some (copy_ret, { s with clipboard := Function.update s.clipboard k none })
      else
        some ((p.length : Int),
          { s with
            clipboard := Function.update s.clipboard k (some p)
            number_of_active_entries := s.number_of_active_entries + 1
            clipboard_lengths := Function.update s.clipboard_lengths k (p.length : Int) })

/-- What a successful `sys_safecopyto` of `n` bytes out of a slot delivers: the
first `n` bytes of the buffer.  Not determined by the store when the slot holds
fewer than `n` bytes. -/
def copy_out : Option (List Byte) → Nat → Option (List Byte)
  | some buf, n => if n ≤ buf.length then some (buf.take n) else none
  | none, n => if n = 0 then some [] else none

/-- The function `clipboard_read` for a request with destination capacity `size`; `copy_ret`
is the return value of `sys_safecopyto`.  The result is the returned `ssize_t`,
the store afterwards and the bytes delivered to the caller. -/
def clipboard_read (s : Store) (size : Nat) (copy_ret : Int) :
    Option (Int × Store × List Byte) :=
  if s.number_of_active_entries ≤ 0 then some (-1, s, [])
  else
    match index? s.current_index with
    | none => none
    | some k =>
      -- the comparison is made in size_t
      if size < to_size_t (s.clipboard_lengths k) then some (-1, s, [])
      else
        let size1 : Nat :=
          if size > to_size_t (s.clipboard_lengths k) then to_size_t (s.clipboard_lengths k)
          else size
        if copy_ret ≠ OK then some (copy_ret, s, [])
        else
          match copy_out (s.clipboard k) size1 with
          | none => none
          | some bytes =>
            some (to_ssize_t size1,
              { s with
                clipboard := Function.update s.clipboard k none
                clipboard_lengths := Function.update s.clipboard_lengths k 0
                number_of_active_entries := s.number_of_active_entries - 1 },
              bytes)

/-- The `for` loop of `find_first_free_index`, started at `i` with `fuel`
iterations left (the caller gives 100, one per slot). -/
def find_first_free_loop (clipboard : Fin 100 → Option (List Byte)) : Nat → Nat → Int
  | 0, _ => -1
  | fuel + 1, i =>
    if h : i < 100 then
      if clipboard ⟨i, h⟩ = none then (i : Int)
      else find_first_free_loop clipboard fuel (i + 1)
    else -1

/-- The function `find_first_free_index`: -1 when the counter has reached 100,
otherwise the result of the scan. -/
def find_first_free_index (s : Store) : Int :=
  if s.number_of_active_entries ≥ (MAX_CLIPBOARD_ENTRIES : Int) then -1
  else find_first_free_loop s.clipboard 100 0

/-- What `debug_print` shows after the length of a slot: the `NULL!` marker, the
characters `%.*s` prints, or nothing the store determines when `printf` reads
past the end of the buffer. -/
inductive DumpText where
  | null_marker
  | text (bytes : List Byte)
  | past_buffer

/-- The characters `printf("%.*s", length, buf)` prints for a buffer holding
`buf`.  When a NUL lies inside the buffer the string ends there, and a
non-negative precision cuts it to `length` characters (a negative one is
ignored).  When the buffer holds no NUL, a precision within the buffer prints
that many bytes; otherwise `printf` reads past the allocation. -/
def printed_text (length : Int) (buf : List Byte) : DumpText :=
  if (buf.takeWhile fun b => decide (b ≠ 0)).length < buf.length then
    if length < 0 then DumpText.text (buf.takeWhile fun b => decide (b ≠ 0))
    else DumpText.text ((buf.takeWhile fun b => decide (b ≠ 0)).take length.toNat)
  else if 0 ≤ length ∧ length.toNat ≤ buf.length then DumpText.text (buf.take length.toNat)
  else DumpText.past_buffer

/-- One line of `debug_print`: slot id, recorded length, and what follows it. -/
structure DumpLine where
  id : Nat
  length : Int
  shown : DumpText

/-- The function `debug_print`: the active count and one line per slot, with the
`NULL!` marker for a `NULL` pointer and the `%.*s` rendering of the buffer
otherwise. -/
def debug_print (s : Store) : Int × List DumpLine :=
  (s.number_of_active_entries,
   (List.finRange 100).map fun i =>
     { id := i.val
       length := s.clipboard_lengths i
       shown :=
         match s.clipboard i with
         | none => DumpText.null_marker
         | some buf => printed_text (s.clipboard_lengths i) buf })

/-- The function `clipboard_ioctl` for the request code `request` (an `unsigned long`): the
returned `int` and the store afterwards.  The console output of the debug dump
is `debug_print`. -/
def clipboard_ioctl (s : Store) (request : Nat) : Int × Store :=
  if request = DEBUG_CTL then ((DEBUG_CTL : Int), s)
  else if request = STATE_WRITE then
    (find_first_free_index s, { s with current_index := find_first_free_index s })
  else if request < MAX_CLIPBOARD_ENTRIES then
    ((request : Int), { s with current_index := (request : Int) })
  else (ENOTTY, s)

/-- Number of slots whose pointer is not `NULL`. -/
def occupied (c : Fin 100 → Option (List Byte)) : Nat :=
  (List.finRange 100).countP fun i => (c i).isSome

/-- A store with every pointer `NULL` and every length 0. -/
def empty_store : Store :=
  { number_of_active_entries := 0
    current_index := 0
    clipboard := fun _ => none
    clipboard_lengths := fun _ => 0 }

/-- A store with two entries: slot 0 holds `A`, slot 1 holds `B`. -/
def two_entries : Store :=
  { number_of_active_entries := 2
    current_index := 0
    clipboard := Function.update (Function.update (fun _ => none) 0 (some [65])) 1 (some [66])
    clipboard_lengths := Function.update (Function.update (fun _ => 0) 0 1) 1 1 }

/-- A store with no free slot: every slot holds the one byte `A`. -/
def full_store : Store :=
  { number_of_active_entries := 100
    current_index := 5
    clipboard := fun _ => some [65]
    clipboard_lengths := fun _ => 1 }

/-- The store after 100 writes of `A` into slot 0: one slot is occupied, the
counter stands at 100. -/
def overwritten_store : Store :=
  { number_of_active_entries := 100
    current_index := 0
    clipboard := Function.update (fun _ => none) 0 (some [65])
    clipboard_lengths := Function.update (fun _ => 0) 0 1 }

/-! ## The requests the dispatcher delivers -/

/-- One request handed to the driver by `chardriver_task`, together with the
outcome of the external calls it triggers. -/
inductive Request where
  | dev_open
  | dev_close
  | write (p : List Byte) (malloc_ok : Bool) (copy_ret : Int)
  | read (size : Nat) (copy_ret : Int)
  | ioctl (request : Nat)

/-- The entry of `clipboard_tab` a request is routed to: the returned value and
the store afterwards. -/
def dispatch (s : Store) : Request → Option (Int × Store)
  | Request.dev_open => some (clipboard_open s)
  | Request.dev_close => some (clipboard_close s)
  | Request.write p malloc_ok copy_ret => clipboard_write s p malloc_ok copy_ret
  | Request.read size copy_ret => (clipboard_read s size copy_ret).map fun r => (r.1, r.2.1)
  | Request.ioctl request => some (clipboard_ioctl s request)

/-- The store after a sequence of requests, one at a time. -/
def run (s : Store) : List Request → Option Store
  | [] => some s
  | r :: rs =>
    match dispatch s r with
    | none => none
    | some res => run res.2 rs

/-- A request that keeps the counter exact: a control call, or a write of at most 200
bytes whose target slot (the slot at `current_index`) is empty when it arrives. -/
def control_or_write_to_free (s : Store) : Request → Bool
  | Request.ioctl _ => true
  | Request.write p _ _ =>
    decide (p.length ≤ 200) &&
      (match index? s.current_index with
       | some k => (s.clipboard k).isNone
       | none => true)
  | _ => false

/-- A control call, or a write of at most 200 bytes whatever its target slot
holds. -/
def control_or_write (_s : Store) : Request → Bool
  | Request.ioctl _ => true
  | Request.write p _ _ => decide (p.length ≤ 200)
  | _ => false

/-- Every request of the sequence satisfies `ok` in the store it arrives at. -/
def all_along (ok : Store → Request → Bool) : Store → List Request → Bool
  | _, [] => true
  | s, r :: rs =>
    ok s r &&
      (match dispatch s r with
       | none => true
       | some res => all_along ok res.2 rs)

/-! ## The data store and the state-transfer code -/

/-- Modelled from the spec: the data store `ds_*` is a MINIX service outside the
repository; section 6 describes it as scalar and blob publish, retrieve and
delete by key name.  These are its entries under the driver's keys:
`pszulc_number_entries`, `pszulc_index`, `pszulc_lengths` (the memory image of
the `int` array, kept as the array) and `pszulc_clipboard_<i>`. -/
structure DS where
  number_entries : Option Nat
  index : Option Nat
  lengths : Option (Fin 100 → Int)
  clipboard : Nat → Option (List Byte)

/-- Modelled from the spec: `ds_publish_mem(key_i, ptr, length, DSF_OVERWRITE)`
stores the `length` bytes at `ptr` under the key, replacing an older value. -/
def ds_publish_mem (ds : DS) (i : Nat) (bytes : List Byte) : DS :=
  { ds with clipboard := Function.update ds.clipboard i (some bytes) }

/-- Modelled from the spec: `ds_delete_mem(key_i)`. -/
def ds_delete_mem (ds : DS) (i : Nat) : DS :=
  { ds with clipboard := Function.update ds.clipboard i none }

/-- An automatic array of `n` chars that is never initialised: it starts with
the bytes `garbage` happens to hold. -/
def stack_buffer (n : Nat) (garbage : List Byte) : List Byte :=
  (garbage ++ List.replicate n 0).take n

/-- Modelled from the spec: `ds_retrieve_mem(key, buf, &length)` copies the
stored bytes, at most `length` of them, to the front of `buf`; an absent key
leaves `buf` as it is.  `none` when the copy runs past the end of `buf`. -/
def ds_retrieve_mem (stored : Option (List Byte)) (buf : List Byte) (length : Nat) :
    Option (List Byte) :=
  match stored with
  | none => some buf
  | some data =>
    if min data.length length ≤ buf.length then
      some (data.take (min data.length length) ++ buf.drop (min data.length length))
    else none

/-- What the save routine cannot know from the store: the text `%s` prints for a
`NULL` argument (`(null)` in the MINIX C library), the bytes that follow each
buffer in memory up to the next NUL (the buffers carry no terminator), and the
initial content of the automatic array `buffer2`. -/
structure SaveEnv where
  null_text : List Byte
  beyond : Fin 100 → List Byte
  buffer2 : List Byte

/-- The characters `%s` prints for slot `i`: the bytes from the start of the
buffer up to the first NUL. -/
def c_string (env : SaveEnv) (i : Fin 100) : Option (List Byte) → List Byte
  | none => env.null_text
  | some buf => (buf ++ env.beyond i).takeWhile fun b => decide (b ≠ 0)

/-- The call `sprintf(buffer2, "%s%s", a, b)`: the two strings and a terminating NUL are
written to the front of `buffer2`; `none` when they do not fit. -/
def sprintf_pair (buffer2 : List Byte) (a b : List Byte) : Option (List Byte) :=
  if (a ++ b ++ [0]).length ≤ buffer2.length then
    some (a ++ b ++ [0] ++ buffer2.drop (a ++ b ++ [0]).length)
  else none

/-- The body of the save loop for the pair `i`, `i + 1`; the state is `buffer2`
and the data store. -/
def save_pair (env : SaveEnv) (s : Store) (i : Nat) (h : i + 1 < 100) (st : List Byte × DS) :
    Option (List Byte × DS) :=
  if s.clipboard_lengths ⟨i, by omega⟩ + s.clipboard_lengths ⟨i + 1, h⟩ > 0 then
    match sprintf_pair st.1 (c_string env ⟨i, by omega⟩ (s.clipboard ⟨i, by omega⟩))
        (c_string env ⟨i + 1, h⟩ (s.clipboard ⟨i + 1, h⟩)) with
    | none => none
    | some buffer2 =>
      -- ds_publish_mem reads length[i] + length[i+1] bytes of buffer2
      if (s.clipboard_lengths ⟨i, by omega⟩ + s.clipboard_lengths ⟨i + 1, h⟩).toNat
          ≤ buffer2.length then
        some (buffer2, ds_publish_mem st.2 i
          (buffer2.take (s.clipboard_lengths ⟨i, by omega⟩ + s.clipboard_lengths ⟨i + 1, h⟩).toNat))
      else none
  else some st

/-- The loop `for (i = 0; i < 100; i += 2)` of the save routine, started at `i`
with `fuel` iterations left (the caller gives 50). -/
def save_loop (env : SaveEnv) (s : Store) : Nat → Nat → List Byte × DS → Option (List Byte × DS)
  | 0, _, st => some st
  | fuel + 1, i, st =>
    if i < 100 then
      if h : i + 1 < 100 then
        match save_pair env s i h st with
        | none => none
        | some st1 => save_loop env s fuel (i + 2) st1
      else none
    else some st

/-- The function `sef_cb_lu_state_save`: the returned value and the data store afterwards; the
driver's store is only read. -/
def sef_cb_lu_state_save (s : Store) (env : SaveEnv) (ds : DS) : Option (Int × DS) :=
  match save_loop env s 50 0
      (stack_buffer (2 * MAX_LENGTH_ENTRY + 1) env.buffer2,
       { ds with
         number_entries := some (to_size_t s.number_of_active_entries)
         index := some (to_size_t s.current_index)
         lengths := some s.clipboard_lengths }) with
  | none => none
  | some st => some (OK, st.2)

/-- What the restore routine cannot know from the data store: the initial content
of its automatic variables `buffer2`, `entries` and `index`, and whether the
`malloc` for each slot returns a buffer. -/
structure RestoreEnv where
  buffer2 : List Byte
  entries : Nat
  index : Nat
  malloc_ok : Fin 100 → Bool

/-- The body of the restore loop for the pair `i`, `i + 1`; the state is
`buffer2`, the pointer array and the data store.  `lengths` is the restored
length array. -/
def restore_pair (env : RestoreEnv) (lengths : Fin 100 → Int) (i : Nat) (h : i + 1 < 100)
    (st : List Byte × (Fin 100 → Option (List Byte)) × DS) :
    Option (List Byte × (Fin 100 → Option (List Byte)) × DS) :=
  if lengths ⟨i, by omega⟩ + lengths ⟨i + 1, h⟩ > 0 then
    match ds_retrieve_mem (st.2.2.clipboard i) st.1
        (lengths ⟨i, by omega⟩ + lengths ⟨i + 1, h⟩).toNat with
    | none => none
    | some buffer2 =>
      -- the first half
      let first : Option (Fin 100 → Option (List Byte)) :=
        if lengths ⟨i, by omega⟩ > 0 then
          if env.malloc_ok ⟨i, by omega⟩ = true ∧
              (lengths ⟨i, by omega⟩).toNat ≤ buffer2.length then
            some (Function.update st.2.1 ⟨i, by omega⟩
              (some (buffer2.take (lengths ⟨i, by omega⟩).toNat)))
          else none
        else some st.2.1
      match first with
      | none => none
      | some c1 =>
        -- the second half, read at buffer2 + length[i]
        if lengths ⟨i + 1, h⟩ > 0 then
          if env.malloc_ok ⟨i + 1, h⟩ = true ∧ 0 ≤ lengths ⟨i, by omega⟩ ∧
              (lengths ⟨i, by omega⟩).toNat + (lengths ⟨i + 1, h⟩).toNat ≤ buffer2.length then
            some (buffer2,
              Function.update c1 ⟨i + 1, h⟩
                (some ((buffer2.drop (lengths ⟨i, by omega⟩).toNat).take
                  (lengths ⟨i + 1, h⟩).toNat)),
              ds_delete_mem st.2.2 i)
          else none
        else some (buffer2, c1, ds_delete_mem st.2.2 i)
  else some st

/-- The loop `for (i = 0; i < 100; i += 2)` of the restore routine, started at `i`
with `fuel` iterations left (the caller gives 50). -/
def restore_loop (env : RestoreEnv) (lengths : Fin 100 → Int) :
    Nat → Nat → List Byte × (Fin 100 → Option (List Byte)) × DS →
      Option (List Byte × (Fin 100 → Option (List Byte)) × DS)
  | 0, _, st => some st
  | fuel + 1, i, st =>
    if i < 100 then
      if h : i + 1 < 100 then
        match restore_pair env lengths i h st with
        | none => none
        | some st1 => restore_loop env lengths fuel (i + 2) st1
      else none
    else some st

/-- The function `lu_state_restore`, run on the store `s`: the returned value, the store and
the data store afterwards.  A key that is absent leaves the variable it would
have filled as it was. -/
def lu_state_restore (s : Store) (env : RestoreEnv) (ds : DS) : Option (Int × Store × DS) :=
  match restore_loop env (ds.lengths.getD s.clipboard_lengths) 50 0
      (stack_buffer (2 * MAX_LENGTH_ENTRY) env.buffer2, s.clipboard,
       { ds with number_entries := none, index := none, lengths := none }) with
  | none => none
  | some st =>
    some (OK,
      { number_of_active_entries := to_ssize_t (ds.number_entries.getD env.entries)
        current_index := to_ssize_t (ds.index.getD env.index)
        clipboard := st.2.1
        clipboard_lengths := ds.lengths.getD s.clipboard_lengths },
      st.2.2)

/-- The three values `sef_cb_init` is called with. -/
inductive InitType where
  | SEF_INIT_FRESH
  | SEF_INIT_LU
  | SEF_INIT_RESTART

/-- The content of the two arrays `sef_cb_init` obtains from `malloc`, which it
does not initialise. -/
structure RawMemory where
  clipboard : Fin 100 → Option (List Byte)
  clipboard_lengths : Fin 100 → Int

/-- Freshly mapped, zero-filled memory: every pointer `NULL`, every `int` 0. -/
def zero_memory : RawMemory :=
  { clipboard := fun _ => none
    clipboard_lengths := fun _ => 0 }

/-- The function `sef_cb_init`: the returned value, the store and the data store afterwards,
and whether `chardriver_announce` was called. -/
def sef_cb_init (type : InitType) (raw : RawMemory) (env : RestoreEnv) (ds : DS) :
    Option (Int × Store × DS × Bool) :=
  match type with
  | InitType.SEF_INIT_FRESH =>
    some (OK, { number_of_active_entries := 0, current_index := 0,
                clipboard := raw.clipboard, clipboard_lengths := raw.clipboard_lengths }, ds, true)
  | InitType.SEF_INIT_LU =>
    match lu_state_restore { number_of_active_entries := 0, current_index := 0,
                             clipboard := raw.clipboard,
                             clipboard_lengths := raw.clipboard_lengths } env ds with
    | none => none
    | some res => some (OK, res.2.1, res.2.2, false)
  | InitType.SEF_INIT_RESTART =>
    some (OK, { number_of_active_entries := 0, current_index := 0,
                clipboard := raw.clipboard, clipboard_lengths := raw.clipboard_lengths }, ds, true)

/-- A data store holding none of the driver's keys. -/
def empty_ds : DS :=
  { number_entries := none, index := none, lengths := none, clipboard := fun _ => none }

/-- The C library of MINIX prints `(null)` for a `NULL` string; nothing readable
follows the buffers; `buffer2` starts zero-filled. -/
def plain_save_env : SaveEnv :=
  { null_text := [40, 110, 117, 108, 108, 41]
    beyond := fun _ => []
    buffer2 := [] }

/-- Every `malloc` succeeds, the automatic variables start zero-filled. -/
def plain_restore_env : RestoreEnv :=
  { buffer2 := [], entries := 0, index := 0, malloc_ok := fun _ => true }

/-- A store whose slot 0 holds a zero-length entry (a buffer obtained from
`malloc(0)`), as a write of no bytes leaves it. -/
def zero_length_entry : Store :=
  { number_of_active_entries := 1
    current_index := 0
    clipboard := Function.update (fun _ => none) 0 (some [])
    clipboard_lengths := fun _ => 0 }

/-- A store whose slots 0 and 1 hold binary payloads with NUL bytes:
`00 41` and `42 00`. -/
def binary_entries : Store :=
  { number_of_active_entries := 2
    current_index := 0
    clipboard := Function.update (Function.update (fun _ => none) 0 (some [0, 65])) 1
      (some [66, 0])
    clipboard_lengths := Function.update (Function.update (fun _ => 0) 0 2) 1 2 }

/-! ## Sample inputs for the later statements -/

/-- The five bytes of the word `hello`. -/
def hello : List Byte := [104, 101, 108, 108, 111]

/-- Memory that `malloc` hands out with old content in it: the first pointer is
not `NULL`, the first `int` is 7. -/
def dirty_memory : RawMemory :=
  { clipboard := Function.update (fun _ => none) 0 (some [1])
    clipboard_lengths := Function.update (fun _ => 0) 0 7 }

/-- Memory that `malloc` hands out with old content in it: every pointer is
`NULL`, the first `int` is 1000. -/
def oversized_memory : RawMemory :=
  { clipboard := fun _ => none
    clipboard_lengths := Function.update (fun _ => 0) 0 1000 }

/-- The requests that fill the first `n` slots: for each slot in turn, select it
and write the byte `A` into it. -/
def fill_slots : Nat → List Request
  | 0 => []
  | n + 1 => fill_slots n ++ [Request.ioctl n, Request.write [65] true OK]

/-- A store whose slot 0 is empty and whose slot 1 holds the byte `B`. -/
def right_entry_only : Store :=
  { number_of_active_entries := 1
    current_index := 1
    clipboard := Function.update (fun _ => none) 1 (some [66])
    clipboard_lengths := Function.update (fun _ => 0) 1 1 }

/-! ## Counting the requests that succeed -/

/-- The number of write requests of the sequence that return a non-negative value
(the number of bytes written), the sequence being run from `s`. -/
def successful_writes (s : Store) : List Request → Nat
  | [] => 0
  | r :: rs =>
    match dispatch s r with
    | none => 0
    | some res =>
      (match r with
       | Request.write _ _ _ => if 0 ≤ res.1 then 1 else 0
       | _ => 0) + successful_writes res.2 rs

/-- The number of read requests of the sequence that return a non-negative value
(the number of bytes produced), the sequence being run from `s`. -/
def successful_reads (s : Store) : List Request → Nat
  | [] => 0
  | r :: rs =>
    match dispatch s r with
    | none => 0
    | some res =>
      (match r with
       | Request.read _ _ => if 0 ≤ res.1 then 1 else 0
       | _ => 0) + successful_reads res.2 rs

/-- The convention of MINIX kernel calls, for every transfer of the sequence: the
value returned by `sys_safecopyfrom` or `sys_safecopyto` is `OK` or a negative
errno. -/
def kernel_results : List Request → Bool
  | [] => true
  | Request.write _ _ copy_ret :: rs => decide (copy_ret ≤ 0) && kernel_results rs
  | Request.read _ copy_ret :: rs => decide (copy_ret ≤ 0) && kernel_results rs
  | _ :: rs => kernel_results rs

/-! ## Predicates used in the statements -/

/-- What control calls and writes to free slots preserve: the counter equals the number of occupied
slots, and the cursor designates a slot unless the counter has reached 100. -/
def counter_exact (s : Store) : Prop :=
  s.number_of_active_entries = (occupied s.clipboard : Int) ∧
    (index? s.current_index = none → s.number_of_active_entries ≥ 100)

/-- What restore leaves in slot `j`, given the length array and the pointer
array `c0` it started from: a buffer of the recorded length when that length is
positive, the old pointer otherwise. -/
def restored_slot (lengths : Fin 100 → Int) (c c0 : Fin 100 → Option (List Byte))
    (j : Fin 100) : Prop :=
  (0 < lengths j → ∃ b, c j = some b ∧ (b.length : Int) = lengths j) ∧
    (lengths j ≤ 0 → c j = c0 j)

/-- Every recorded length lies in [0, 200]. -/
def lengths_bounded (s : Store) : Prop :=
  ∀ j, 0 ≤ s.clipboard_lengths j ∧ s.clipboard_lengths j ≤ 200

/-- The entry counter lies in [0, 100]. -/
def counter_in_range (s : Store) : Prop :=
  0 ≤ s.number_of_active_entries ∧ s.number_of_active_entries ≤ 100

/-! ## Basic facts -/

theorem index?_eq_some {i : Int} {k : Fin 100} (h : index? i = some k) : i = (k.val : Int) := by
  unfold index? at h
  split_ifs at h with hi
  have hk := (Option.some.inj h).symm
  subst hk
  simp only []
  omega

theorem index?_natCast (c : Nat) (hc : c < 100) : index? (c : Int) = some ⟨c, hc⟩ := by
  unfold index?
  have h : (0 : Int) ≤ (c : Int) ∧ (c : Int) < 100 := by omega
  rw [dif_pos h]
  simp

theorem to_size_t_natCast (n : Nat) (hn : n < 4294967296) : to_size_t (n : Int) = n := by
  unfold to_size_t
  omega

theorem to_size_t_of_nonneg (x : Int) (h0 : 0 ≤ x) (h1 : x < 4294967296) :
    (to_size_t x : Int) = x := by
  unfold to_size_t
  omega

theorem to_ssize_t_small (n : Nat) (hn : n < 2147483648) : to_ssize_t n = (n : Int) := by
  unfold to_ssize_t
  have h : n % 4294967296 = n := Nat.mod_eq_of_lt (by omega)
  rw [h, if_pos hn]

/-- The store a successful write produces. -/
theorem clipboard_write_success (s : Store) (p : List Byte) (malloc_ok : Bool) (copy_ret : Int)
    (s1 : Store) (hkernel : copy_ret ≤ 0)
    (hwrite : clipboard_write s p malloc_ok copy_ret = some ((p.length : Int), s1)) :
    ∃ k, index? s.current_index = some k ∧ s.number_of_active_entries < 100 ∧
      p.length ≤ 200 ∧ malloc_ok = true ∧ copy_ret = OK ∧
      s1 = { s with
              clipboard := Function.update s.clipboard k (some p)
              number_of_active_entries := s.number_of_active_entries + 1
              clipboard_lengths := Function.update s.clipboard_lengths k (p.length : Int) } := by
  unfold clipboard_write at hwrite
  simp only [MAX_CLIPBOARD_ENTRIES, MAX_LENGTH_ENTRY, OK] at hwrite
  have hnn : (-1 : Int) ≠ (p.length : Int) := by omega
  by_cases h1 : s.number_of_active_entries ≥ ((100 : Nat) : Int)
  · rw [if_pos h1] at hwrite
    exact absurd (congrArg Prod.fst (Option.some.inj hwrite)) hnn
  rw [if_neg h1] at hwrite
  by_cases h2 : p.length > 200
  · rw [if_pos h2] at hwrite
    exact absurd (congrArg Prod.fst (Option.some.inj hwrite)) hnn
  rw [if_neg h2] at hwrite
  cases hk : index? s.current_index with
  | none =>
    rw [hk] at hwrite
    exact absurd hwrite (by simp)
  | some k =>
    rw [hk] at hwrite
    simp only [] at hwrite
    by_cases h3 : malloc_ok = false
    · rw [if_pos h3] at hwrite
      exact absurd (congrArg Prod.fst (Option.some.inj hwrite)) hnn
    rw [if_neg h3] at hwrite
    by_cases h4 : copy_ret ≠ 0
    · rw [if_pos h4] at hwrite
      have h5 : copy_ret = (p.length : Int) := congrArg Prod.fst (Option.some.inj hwrite)
      omega
    rw [if_neg h4] at hwrite
    have h5 := congrArg Prod.snd (Option.some.inj hwrite)
    simp only [] at h5
    refine ⟨k, rfl, ?_, by omega, by simpa using h3, by simpa [OK] using h4, h5.symm⟩
    push_cast at h1
    omega

/-- The result of a read that gets through: stored length `len` within the
capacity, transfer-out successful, buffer holding at least `len` bytes. -/
theorem clipboard_read_success (s : Store) (k : Fin 100) (cap : Nat) (buf : List Byte)
    (hpos : 0 < s.number_of_active_entries)
    (hk : index? s.current_index = some k)
    (h0 : 0 ≤ s.clipboard_lengths k) (h1 : s.clipboard_lengths k < 2147483648)
    (hcap : s.clipboard_lengths k ≤ (cap : Int))
    (hbuf : s.clipboard k = some buf) (hfit : s.clipboard_lengths k ≤ (buf.length : Int)) :
    clipboard_read s cap OK =
      some (s.clipboard_lengths k,
        { s with
          clipboard := Function.update s.clipboard k none
          clipboard_lengths := Function.update s.clipboard_lengths k 0
          number_of_active_entries := s.number_of_active_entries - 1 },
        buf.take (s.clipboard_lengths k).toNat) := by
  have hsz : to_size_t (s.clipboard_lengths k) = (s.clipboard_lengths k).toNat := by
    unfold to_size_t
    omega
  unfold clipboard_read
  have hpos1 : ¬ (s.number_of_active_entries ≤ 0) := by omega
  have hlt : ¬ (cap < (s.clipboard_lengths k).toNat) := by omega
  simp only [hpos1, if_false, hk, hsz, hlt, ne_eq, not_true_eq_false, hbuf]
  have hsize : (if cap > (s.clipboard_lengths k).toNat then (s.clipboard_lengths k).toNat
      else cap) = (s.clipboard_lengths k).toNat := by
    split_ifs with hgt
    · rfl
    · omega
  rw [hsize]
  have hle : (s.clipboard_lengths k).toNat ≤ buf.length := by omega
  simp only [copy_out, hle, if_true]
  rw [to_ssize_t_small _ (by omega)]
  have hcast : (((s.clipboard_lengths k).toNat : Nat) : Int) = s.clipboard_lengths k := by omega
  rw [hcast]

/-- C1: for a store with a non-negative entry counter and a payload `p` of at
most 200 bytes, if `clipboard_write` of `p` returns `p.length` (the transfer
result being `OK` or a negative errno) and `clipboard_read` follows directly
with a capacity of at least `p.length` and a successful transfer-out, the read
returns `p.length`, delivers exactly `p`, and leaves the slot at `current_index`
empty. -/
theorem write_then_read_returns_payload (s : Store) (p : List Byte) (malloc_ok : Bool)
    (copy_ret : Int) (s1 : Store) (cap : Nat)
    (hcount : 0 ≤ s.number_of_active_entries)
    (hkernel : copy_ret ≤ 0)
    (hlen : p.length ≤ 200)
    (hwrite : clipboard_write s p malloc_ok copy_ret = some ((p.length : Int), s1))
    (hcap : p.length ≤ cap) :
    ∃ s2 k, clipboard_read s1 cap OK = some ((p.length : Int), s2, p) ∧
      index? s2.current_index = some k ∧ s2.clipboard k = none := by
  obtain ⟨k, hk, _, _, _, _, hs1⟩ :=
    clipboard_write_success s p malloc_ok copy_ret s1 hkernel hwrite
  have hk1 : index? s1.current_index = some k := by rw [hs1]; exact hk
  have hl1 : s1.clipboard_lengths k = (p.length : Int) := by rw [hs1]; simp
  have hb1 : s1.clipboard k = some p := by rw [hs1]; simp
  have hc1 : 0 < s1.number_of_active_entries := by rw [hs1]; simp only []; omega
  have hread := clipboard_read_success s1 k cap p hc1 hk1 (by omega) (by omega) (by omega) hb1
    (by omega)
  rw [hl1] at hread
  simp only [Int.toNat_ofNat, List.take_length] at hread
  exact ⟨_, k, hread, hk1, by simp⟩

/-- Witness of C1 on the empty store: writing `hi` and reading it back with
capacity 10. -/
theorem write_then_read_returns_payload_witness :
    ∃ s2 k, clipboard_read
        { empty_store with
          clipboard := Function.update empty_store.clipboard ⟨0, by decide⟩ (some [104, 105])
          number_of_active_entries := 1
          clipboard_lengths := Function.update empty_store.clipboard_lengths ⟨0, by decide⟩ 2 }
        10 OK = some (2, s2, [104, 105]) ∧
      index? s2.current_index = some k ∧ s2.clipboard k = none :=
  write_then_read_returns_payload empty_store [104, 105] true OK _ 10 (by decide) (by decide)
    (by decide) rfl (by decide)

/-- A write that passes both guards, gets its buffer and its bytes. -/
theorem clipboard_write_ok (s : Store) (p : List Byte) (k : Fin 100)
    (hcount : s.number_of_active_entries < 100) (hlen : p.length ≤ 200)
    (hk : index? s.current_index = some k) :
    clipboard_write s p true OK = some ((p.length : Int),
      { s with
        clipboard := Function.update s.clipboard k (some p)
        number_of_active_entries := s.number_of_active_entries + 1
        clipboard_lengths := Function.update s.clipboard_lengths k (p.length : Int) }) := by
  unfold clipboard_write
  have h1 : ¬ (s.number_of_active_entries ≥ ((MAX_CLIPBOARD_ENTRIES : Nat) : Int)) := by
    simp only [MAX_CLIPBOARD_ENTRIES]
    push_cast
    omega
  have h2 : ¬ (p.length > MAX_LENGTH_ENTRY) := by
    simp only [MAX_LENGTH_ENTRY]
    omega
  rw [if_neg h1, if_neg h2, hk]
  simp

/-- A write that arrives with the counter at 100 or more is turned away. -/
theorem clipboard_write_full (s : Store) (p : List Byte) (malloc_ok : Bool) (copy_ret : Int)
    (h : s.number_of_active_entries ≥ 100) :
    clipboard_write s p malloc_ok copy_ret = some (-1, s) := by
  unfold clipboard_write
  have h1 : s.number_of_active_entries ≥ ((MAX_CLIPBOARD_ENTRIES : Nat) : Int) := by
    simp only [MAX_CLIPBOARD_ENTRIES]
    push_cast
    exact h
  rw [if_pos h1]

/-- On a fresh start with zero-filled arrays `sef_cb_init` leaves the empty store
and announces the driver. -/
theorem sef_cb_init_fresh_zero (env : RestoreEnv) (ds : DS) :
    sef_cb_init InitType.SEF_INIT_FRESH zero_memory env ds = some (OK, empty_store, ds, true) :=
  rfl

/-- A write whose `malloc` fails stores the `NULL` it got in the current slot. -/
theorem clipboard_write_malloc_failure (s : Store) (p : List Byte) (k : Fin 100) (copy_ret : Int)
    (hcount : s.number_of_active_entries < 100) (hlen : p.length ≤ 200)
    (hk : index? s.current_index = some k) :
    clipboard_write s p false copy_ret =
      some (-1, { s with clipboard := Function.update s.clipboard k none }) := by
  unfold clipboard_write
  have h1 : ¬ (s.number_of_active_entries ≥ ((MAX_CLIPBOARD_ENTRIES : Nat) : Int)) := by
    simp only [MAX_CLIPBOARD_ENTRIES]
    push_cast
    omega
  have h2 : ¬ (p.length > MAX_LENGTH_ENTRY) := by
    simp only [MAX_LENGTH_ENTRY]
    omega
  rw [if_neg h1, if_neg h2, hk]
  simp

/-- The scan finds nothing when no slot from `i` on is `NULL`. -/
theorem find_first_free_loop_none (c : Fin 100 → Option (List Byte)) (fuel i : Nat)
    (h : ∀ j : Fin 100, i ≤ j.val → c j ≠ none) : find_first_free_loop c fuel i = -1 := by
  induction fuel generalizing i with
  | zero => rfl
  | succ n ih =>
    unfold find_first_free_loop
    by_cases hi : i < 100
    · rw [dif_pos hi, if_neg (h ⟨i, hi⟩ (le_refl i))]
      exact ih (i + 1) (fun j hj => h j (by omega))
    · rw [dif_neg hi]

/-- The scan returns the first `NULL` slot from `i` on when there is one and the
fuel covers the rest of the array. -/
theorem find_first_free_loop_some (c : Fin 100 → Option (List Byte)) (fuel i : Nat)
    (hfuel : 100 ≤ i + fuel) (h : ∃ j : Fin 100, i ≤ j.val ∧ c j = none) :
    ∃ k : Fin 100, i ≤ k.val ∧ c k = none ∧ (∀ j : Fin 100, i ≤ j.val → j < k → c j ≠ none) ∧
      find_first_free_loop c fuel i = (k.val : Int) := by
  induction fuel generalizing i with
  | zero =>
    obtain ⟨j, hj, _⟩ := h
    have := j.isLt
    omega
  | succ n ih =>
    obtain ⟨j, hj, hjn⟩ := h
    have hi : i < 100 := lt_of_le_of_lt hj j.isLt
    unfold find_first_free_loop
    rw [dif_pos hi]
    by_cases hc : c ⟨i, hi⟩ = none
    · rw [if_pos hc]
      refine ⟨⟨i, hi⟩, le_refl i, hc, ?_, rfl⟩
      intro j1 h1 h2
      have : j1.val < i := h2
      omega
    · rw [if_neg hc]
      have hne : j.val ≠ i := by
        intro heq
        apply hc
        have hji : j = ⟨i, hi⟩ := Fin.ext heq
        rw [← hji]
        exact hjn
      obtain ⟨k, hk1, hk2, hk3, hk4⟩ := ih (i + 1) (by omega) ⟨j, by omega, hjn⟩
      refine ⟨k, by omega, hk2, ?_, hk4⟩
      intro j1 h1 h2
      by_cases hj1 : j1.val = i
      · have hji : j1 = ⟨i, hi⟩ := Fin.ext hj1
        rw [hji]
        exact hc
      · exact hk3 j1 (by omega) h2

/-- C10: a write whose payload is longer than 200 bytes, or that arrives when
`number_of_active_entries` is at least 100, returns -1 and leaves the whole
store as it was, whatever `malloc` and the transfer would have done. -/
theorem write_rejected_leaves_store (s : Store) (p : List Byte) (malloc_ok : Bool)
    (copy_ret : Int) (h : p.length > 200 ∨ s.number_of_active_entries ≥ 100) :
    clipboard_write s p malloc_ok copy_ret = some (-1, s) := by
  unfold clipboard_write
  simp only [MAX_CLIPBOARD_ENTRIES, MAX_LENGTH_ENTRY]
  by_cases h1 : s.number_of_active_entries ≥ ((100 : Nat) : Int)
  · rw [if_pos h1]
  · rw [if_neg h1]
    have h2 : p.length > 200 := by
      rcases h with h | h
      · exact h
      · exact absurd (by push_cast; exact h) h1
    rw [if_pos h2]

/-- Witness of C10: a 201-byte payload offered to the empty store. -/
theorem write_rejected_leaves_store_witness :
    ((List.replicate 201 (0 : Byte)).length > 200 ∨ empty_store.number_of_active_entries ≥ 100) ∧
      clipboard_write empty_store (List.replicate 201 (0 : Byte)) true OK =
        some (-1, empty_store) :=
  ⟨Or.inl (by rw [List.length_replicate]; decide),
   write_rejected_leaves_store empty_store _ true OK
     (Or.inl (by rw [List.length_replicate]; decide))⟩

/-- C6: a control call with a code `c` below 100 returns `c`, sets
`current_index` to `c` without looking at the slot, and changes no slot, no
length and not the counter; a write of `p` (at most 200 bytes, counter below
100, `malloc` and the transfer succeeding) that follows leaves slot `c` holding
exactly `p` with length `p.length`, whatever the slot held before. -/
theorem select_explicit_slot (s : Store) (c : Nat) (hc : c < 100) :
    (clipboard_ioctl s c).1 = (c : Int) ∧
    (clipboard_ioctl s c).2.current_index = (c : Int) ∧
    (clipboard_ioctl s c).2.clipboard = s.clipboard ∧
    (clipboard_ioctl s c).2.clipboard_lengths = s.clipboard_lengths ∧
    (clipboard_ioctl s c).2.number_of_active_entries = s.number_of_active_entries ∧
    ∀ p : List Byte, p.length ≤ 200 → s.number_of_active_entries < 100 →
      ∃ s2, clipboard_write (clipboard_ioctl s c).2 p true OK = some ((p.length : Int), s2) ∧
        s2.clipboard ⟨c, hc⟩ = some p ∧ s2.clipboard_lengths ⟨c, hc⟩ = (p.length : Int) ∧
        ∀ j : Fin 100, j ≠ ⟨c, hc⟩ →
          s2.clipboard j = s.clipboard j ∧ s2.clipboard_lengths j = s.clipboard_lengths j := by
  have hio : clipboard_ioctl s c = ((c : Int), { s with current_index := (c : Int) }) := by
    unfold clipboard_ioctl
    have h1 : ¬ (c = DEBUG_CTL) := by simp only [DEBUG_CTL]; omega
    have h2 : ¬ (c = STATE_WRITE) := by simp only [STATE_WRITE]; omega
    have h3 : c < MAX_CLIPBOARD_ENTRIES := by simp only [MAX_CLIPBOARD_ENTRIES]; omega
    rw [if_neg h1, if_neg h2, if_pos h3]
  rw [hio]
  refine ⟨rfl, rfl, rfl, rfl, rfl, ?_⟩
  intro p hp hcount
  have hw := clipboard_write_ok { s with current_index := (c : Int) } p ⟨c, hc⟩ hcount hp
    (index?_natCast c hc)
  refine ⟨_, hw, by simp, by simp, ?_⟩
  intro j hj
  exact ⟨by simp [Function.update_noteq hj], by simp [Function.update_noteq hj]⟩

/-- Witness of C6: code 57 on the store with two entries, followed by a write
of `hi`. -/
theorem select_explicit_slot_witness :
    57 < 100 ∧
    (clipboard_ioctl two_entries 57).1 = (57 : Int) ∧
    (clipboard_ioctl two_entries 57).2.current_index = (57 : Int) ∧
    ∃ s2, clipboard_write (clipboard_ioctl two_entries 57).2 [104, 105] true OK =
        some (2, s2) ∧ s2.clipboard ⟨57, by decide⟩ = some [104, 105] :=
  ⟨by decide,
   (select_explicit_slot two_entries 57 (by decide)).1,
   (select_explicit_slot two_entries 57 (by decide)).2.1,
   match (select_explicit_slot two_entries 57 (by decide)).2.2.2.2.2 [104, 105]
      (by decide) (by decide) with
   | ⟨s2, h1, h2, _⟩ => ⟨s2, h1, h2⟩⟩

/-- C7: evaluation at the failing input.  On the store with two entries
(`current_index = 0`, slot 0 holding `A`) a write whose `malloc` fails returns
-1, yet slot 0 is `NULL` afterwards while its recorded length is still 1 and the
counter still 2: the store is not the one before the call. -/
theorem write_malloc_failure_clears_slot :
    ∃ s1, clipboard_write two_entries [67] false OK = some (-1, s1) ∧
      two_entries.clipboard 0 = some [65] ∧ s1.clipboard 0 = none ∧
      s1.clipboard_lengths 0 = 1 ∧ s1.number_of_active_entries = 2 :=
  ⟨_, clipboard_write_malloc_failure two_entries [67] 0 OK (by decide) (by decide) rfl,
   by decide, by decide, by decide, by decide⟩

/-- C4: in a store where no slot is `NULL`, the control call with code 100
returns -1 and stores that -1 in `current_index`; the cursor does not keep its
value. -/
theorem select_free_on_full_store (s : Store) (hfull : ∀ i : Fin 100, s.clipboard i ≠ none) :
    clipboard_ioctl s STATE_WRITE = (-1, { s with current_index := -1 }) := by
  have hf : find_first_free_index s = -1 := by
    unfold find_first_free_index
    split_ifs
    · rfl
    · exact find_first_free_loop_none s.clipboard 100 0 (fun j _ => hfull j)
  unfold clipboard_ioctl
  have h1 : ¬ (STATE_WRITE = DEBUG_CTL) := by decide
  rw [if_neg h1, if_pos rfl, hf]

/-- Witness of C4: the full store has its cursor at 5 before the call and at -1
after it. -/
theorem select_free_on_full_store_witness :
    (∀ i : Fin 100, full_store.clipboard i ≠ none) ∧ full_store.current_index = 5 ∧
      clipboard_ioctl full_store STATE_WRITE = (-1, { full_store with current_index := -1 }) :=
  ⟨fun _ => by simp [full_store], rfl,
   select_free_on_full_store full_store (fun _ => by simp [full_store])⟩

/-- Writing `A` into slot 0 again and again: after `n ≥ 1` writes, `m` more
writes lead to the store with counter `n + m` and the one occupied slot. -/
theorem run_repeated_write (m n : Nat) (hn : 1 ≤ n) (hm : n + m ≤ 100) :
    run { overwritten_store with number_of_active_entries := (n : Int) }
        (List.replicate m (Request.write [65] true OK)) =
      some { overwritten_store with number_of_active_entries := ((n + m : Nat) : Int) } := by
  induction m generalizing n with
  | zero => rfl
  | succ k ih =>
    have hw := clipboard_write_ok { overwritten_store with number_of_active_entries := (n : Int) }
      [65] 0 (by simp only []; omega) (by decide) rfl
    simp only [List.replicate_succ, run, dispatch, hw]
    have hstore : ({ number_of_active_entries := (n : Int) + 1
                     current_index := overwritten_store.current_index
                     clipboard := Function.update overwritten_store.clipboard 0 (some [65])
                     clipboard_lengths :=
                       Function.update overwritten_store.clipboard_lengths 0
                         (([65] : List Byte).length : Int) } : Store) =
        { overwritten_store with number_of_active_entries := ((n + 1 : Nat) : Int) } := by
      simp [overwritten_store]
    rw [hstore, ih (n + 1) (by omega) (by omega)]
    have e : n + 1 + k = n + (k + 1) := by omega
    rw [e]

theorem overwritten_store_reachable :
    run empty_store (Request.ioctl 0 :: List.replicate 100 (Request.write [65] true OK)) =
      some overwritten_store := by
  have h1 : run empty_store (Request.ioctl 0 :: List.replicate 100 (Request.write [65] true OK)) =
      run { overwritten_store with number_of_active_entries := ((1 : Nat) : Int) }
        (List.replicate 99 (Request.write [65] true OK)) := by
    have hw := clipboard_write_ok (clipboard_ioctl empty_store 0).2 [65] 0 (by decide)
      (by decide) rfl
    have e : (100 : Nat) = 99 + 1 := rfl
    rw [e, List.replicate_succ]
    simp only [run, dispatch, hw]
    rfl
  rw [h1, run_repeated_write 99 1 (by decide) (by decide)]
  rfl

/-- C5, counterexample: selecting slot 0 and writing into it 100 times leads to
a store whose counter is 100 while slots 1 to 99 are empty; there the control
call with code 100 returns -1 instead of the smallest empty index 1. -/
theorem select_free_counter_guard_counterexample :
    run empty_store (Request.ioctl 0 :: List.replicate 100 (Request.write [65] true OK)) =
      some overwritten_store ∧
    overwritten_store.clipboard 0 ≠ none ∧ overwritten_store.clipboard 1 = none ∧
      (clipboard_ioctl overwritten_store STATE_WRITE).1 = -1 ∧
      (clipboard_ioctl overwritten_store STATE_WRITE).2.current_index ≠ 1 :=
  ⟨overwritten_store_reachable, by decide, by decide, by decide, by decide⟩

/-- C5, amended: when `number_of_active_entries` is below 100 and at least one
slot is empty, the control call with code 100 sets `current_index` to the
smallest index whose slot is empty and returns it; every slot below is
non-empty, and nothing else in the store changes. -/
theorem select_first_free (s : Store) (hcount : s.number_of_active_entries < 100)
    (hfree : ∃ i : Fin 100, s.clipboard i = none) :
    ∃ i : Fin 100, s.clipboard i = none ∧ (∀ j : Fin 100, j < i → s.clipboard j ≠ none) ∧
      clipboard_ioctl s STATE_WRITE = ((i.val : Int), { s with current_index := (i.val : Int) }) := by
  obtain ⟨j, hj⟩ := hfree
  obtain ⟨k, _, hk2, hk3, hk4⟩ :=
    find_first_free_loop_some s.clipboard 100 0 (by omega) ⟨j, Nat.zero_le _, hj⟩
  have hf : find_first_free_index s = (k.val : Int) := by
    unfold find_first_free_index
    have h1 : ¬ (s.number_of_active_entries ≥ ((MAX_CLIPBOARD_ENTRIES : Nat) : Int)) := by
      simp only [MAX_CLIPBOARD_ENTRIES]
      push_cast
      omega
    rw [if_neg h1, hk4]
  refine ⟨k, hk2, fun j1 h1 => hk3 j1 (Nat.zero_le _) h1, ?_⟩
  unfold clipboard_ioctl
  have h1 : ¬ (STATE_WRITE = DEBUG_CTL) := by decide
  rw [if_neg h1, if_pos rfl, hf]

/-- Witness of C5 (amended): on the store with slots 0 and 1 occupied the call
selects slot 2. -/
theorem select_first_free_witness :
    two_entries.number_of_active_entries < 100 ∧ (∃ i : Fin 100, two_entries.clipboard i = none) ∧
      ∃ i : Fin 100, two_entries.clipboard i = none ∧
        (∀ j : Fin 100, j < i → two_entries.clipboard j ≠ none) ∧
        clipboard_ioctl two_entries STATE_WRITE =
          ((i.val : Int), { two_entries with current_index := (i.val : Int) }) :=
  ⟨by decide, ⟨2, by decide⟩, select_first_free two_entries (by decide) ⟨2, by decide⟩⟩

/-- The ways a read returns without touching the store: the counter is not
positive, the capacity is below the stored length, or the transfer-out fails. -/
theorem clipboard_read_rejected (s : Store) (k : Fin 100) (cap : Nat) (ret : Int)
    (hk : index? s.current_index = some k) :
    (s.number_of_active_entries ≤ 0 → clipboard_read s cap ret = some (-1, s, [])) ∧
    (0 < s.number_of_active_entries → cap < to_size_t (s.clipboard_lengths k) →
      clipboard_read s cap ret = some (-1, s, [])) ∧
    (0 < s.number_of_active_entries → ¬ cap < to_size_t (s.clipboard_lengths k) → ret ≠ OK →
      clipboard_read s cap ret = some (ret, s, [])) := by
  refine ⟨?_, ?_, ?_⟩
  · intro h
    unfold clipboard_read
    rw [if_pos h]
  · intro h hlt
    unfold clipboard_read
    rw [if_neg (by omega), hk]
    simp only []
    rw [if_pos hlt]
  · intro h hlt hret
    unfold clipboard_read
    rw [if_neg (by omega), hk]
    simp only []
    rw [if_neg hlt, if_pos hret]

/-- A read that returns a non-negative value after a successful transfer-out has
consumed the current slot. -/
theorem clipboard_read_consumed (s : Store) (cap : Nat) (r : Int) (s1 : Store) (out : List Byte)
    (hread : clipboard_read s cap OK = some (r, s1, out)) (hr : 0 ≤ r) :
    ∃ k, index? s.current_index = some k ∧ 0 < s.number_of_active_entries ∧
      s1 = { s with
              clipboard := Function.update s.clipboard k none
              clipboard_lengths := Function.update s.clipboard_lengths k 0
              number_of_active_entries := s.number_of_active_entries - 1 } := by
  unfold clipboard_read at hread
  by_cases h1 : s.number_of_active_entries ≤ 0
  · rw [if_pos h1] at hread
    have := congrArg Prod.fst (Option.some.inj hread)
    simp only [] at this
    omega
  rw [if_neg h1] at hread
  cases hk : index? s.current_index with
  | none =>
    rw [hk] at hread
    exact absurd hread (by simp)
  | some k =>
    rw [hk] at hread
    simp only [] at hread
    by_cases h2 : cap < to_size_t (s.clipboard_lengths k)
    · rw [if_pos h2] at hread
      have := congrArg Prod.fst (Option.some.inj hread)
      simp only [] at this
      omega
    rw [if_neg h2, if_neg (by simp)] at hread
    split at hread
    · exact absurd hread (by simp)
    · have h5 := congrArg (fun x => x.2.1) (Option.some.inj hread)
      simp only [] at h5
      exact ⟨k, rfl, by omega, h5.symm⟩

/-- C8, counterexample: with two entries stored, slot 0 is read twice in a row
with capacity 10.  The first read returns 1 and the byte `A`; the second read
is not refused: it returns 0 (no bytes), although slot 1 still holds its entry. -/
theorem second_read_not_refused_counterexample :
    ∃ s1 s2, clipboard_read two_entries 10 OK = some (1, s1, [65]) ∧
      clipboard_read s1 10 OK = some (0, s2, []) ∧ s2.clipboard 1 = some [66] :=
  ⟨_, _, rfl, rfl, by decide⟩

/-- C8, amended: after a successful read at the current slot, a second read at
the same slot with no write in between delivers no payload byte, for every
capacity: it returns -1 when the counter has dropped to 0, the transfer error
when the zero-byte transfer-out fails, and 0 otherwise; no slot and no length
changes. -/
theorem second_read_delivers_nothing (s : Store) (cap1 : Nat) (r1 : Int) (s1 : Store)
    (out1 : List Byte) (cap2 : Nat) (ret2 : Int)
    (hfirst : clipboard_read s cap1 OK = some (r1, s1, out1)) (hsucc : 0 ≤ r1) :
    ∃ r2 s2, clipboard_read s1 cap2 ret2 = some (r2, s2, []) ∧
      s2.clipboard = s1.clipboard ∧ s2.clipboard_lengths = s1.clipboard_lengths ∧
      s2.current_index = s1.current_index ∧
      (s1.number_of_active_entries ≤ 0 → r2 = -1) ∧
      (0 < s1.number_of_active_entries → ret2 ≠ OK → r2 = ret2) ∧
      (0 < s1.number_of_active_entries → ret2 = OK → r2 = 0) := by
  obtain ⟨k, hk, _, hs1⟩ := clipboard_read_consumed s cap1 r1 s1 out1 hfirst hsucc
  have hk1 : index? s1.current_index = some k := by rw [hs1]; exact hk
  have hl1 : s1.clipboard_lengths k = 0 := by rw [hs1]; simp
  have hb1 : s1.clipboard k = none := by rw [hs1]; simp
  have hz : to_size_t (s1.clipboard_lengths k) = 0 := by rw [hl1]; rfl
  obtain ⟨ha, _, hc⟩ := clipboard_read_rejected s1 k cap2 ret2 hk1
  by_cases hcount : s1.number_of_active_entries ≤ 0
  · exact ⟨-1, s1, ha hcount, rfl, rfl, rfl, fun _ => rfl, fun h => absurd h (by omega),
      fun h => absurd h (by omega)⟩
  · by_cases hret : ret2 ≠ OK
    · exact ⟨ret2, s1, hc (by omega) (by rw [hz]; omega) hret, rfl, rfl, rfl,
        fun h => absurd h hcount, fun _ _ => rfl, fun _ h => absurd h hret⟩
    · have hret1 : ret2 = OK := by
        by_contra hne
        exact hret hne
      subst hret1
      refine ⟨0, { s1 with
                    clipboard := Function.update s1.clipboard k none
                    clipboard_lengths := Function.update s1.clipboard_lengths k 0
                    number_of_active_entries := s1.number_of_active_entries - 1 }, ?_, ?_, ?_, rfl,
        fun h => absurd h hcount, fun _ h => absurd rfl h, fun _ _ => rfl⟩
      · unfold clipboard_read
        rw [if_neg hcount, hk1]
        simp only [hz, hb1]
        rw [if_neg (by omega), if_neg (by simp)]
        have hsz : (if cap2 > 0 then 0 else cap2) = 0 := by
          split_ifs with h
          · rfl
          · omega
        rw [hsz]
        rfl
      · funext j
        by_cases hj : j = k
        · subst hj
          simp [hb1]
        · simp [Function.update_noteq hj]
      · funext j
        by_cases hj : j = k
        · subst hj
          simp [hl1]
        · simp [Function.update_noteq hj]

/-- Witness of C8 (amended): slot 0 of the store with two entries read twice. -/
theorem second_read_delivers_nothing_witness :
    ∃ r2 s2, clipboard_read
        { two_entries with
          clipboard := Function.update two_entries.clipboard 0 none
          clipboard_lengths := Function.update two_entries.clipboard_lengths 0 0
          number_of_active_entries := two_entries.number_of_active_entries - 1 }
        7 OK = some (r2, s2, []) ∧
      s2.clipboard = Function.update two_entries.clipboard 0 none :=
  match second_read_delivers_nothing two_entries 10 1 _ [65] 7 OK rfl (by decide) with
  | ⟨r2, s2, h1, h2, _⟩ => ⟨r2, s2, h1, h2⟩

/-- C9, counterexample: from the fresh store, slots 0 and 1 are written, slot 0
is read twice and slot 1 is selected.  The counter is 0 while slot 1 still
holds `B`.  There a read with capacity 0 returns the error -1 and leaves the
store unchanged, and the same read retried with capacity 10 and a working
transfer returns -1 again instead of the payload. -/
theorem retry_after_empty_counterexample :
    ∃ s, run empty_store
        [Request.ioctl 0, Request.write [65] true OK, Request.ioctl 1,
         Request.write [66] true OK, Request.ioctl 0, Request.read 10 OK,
         Request.read 10 OK, Request.ioctl 1] = some s ∧
      s.number_of_active_entries = 0 ∧ s.current_index = 1 ∧
      s.clipboard 1 = some [66] ∧ s.clipboard_lengths 1 = 1 ∧
      clipboard_read s 0 OK = some (-1, s, []) ∧
      clipboard_read s 10 OK = some (-1, s, []) :=
  ⟨_, rfl, by decide, by decide, by decide, by decide, rfl, rfl⟩

/-- C9, amended: for a store whose cursor designates a slot whose recorded
length is a non-negative `int`, and a transfer result that is `OK` or a
negative errno: `clipboard_read` returns an error (a negative value) whenever
the capacity is below the stored length or the transfer-out fails; whenever it
returns an error, the store is unchanged and nothing is delivered; when the
counter is positive (the error was not `Empty`), the same read repeated on that
store with a sufficient capacity and a working transfer returns the stored
length and the original payload; when the counter is not positive, every
repeated read returns -1 again. -/
theorem read_failure_keeps_entry (s : Store) (k : Fin 100) (cap : Nat) (ret : Int)
    (hk : index? s.current_index = some k)
    (hlen0 : 0 ≤ s.clipboard_lengths k) (hlen1 : s.clipboard_lengths k < 2147483648)
    (hkernel : ret ≤ 0) :
    (((cap : Int) < s.clipboard_lengths k ∨ ret ≠ OK) →
      ∃ r, r < 0 ∧ clipboard_read s cap ret = some (r, s, [])) ∧
    (∀ r s1 out, clipboard_read s cap ret = some (r, s1, out) → r < 0 →
      s1 = s ∧ out = [] ∧
      ∀ (buf : List Byte) (cap1 : Nat), 0 < s.number_of_active_entries →
        s.clipboard k = some buf → (buf.length : Int) = s.clipboard_lengths k →
        s.clipboard_lengths k ≤ (cap1 : Int) →
        ∃ s2, clipboard_read s1 cap1 OK = some (s.clipboard_lengths k, s2, buf)) ∧
    (s.number_of_active_entries ≤ 0 →
      ∀ (cap1 : Nat) (ret1 : Int), clipboard_read s cap1 ret1 = some (-1, s, [])) := by
  have hempty : s.number_of_active_entries ≤ 0 →
      ∀ (cap1 : Nat) (ret1 : Int), clipboard_read s cap1 ret1 = some (-1, s, []) :=
    fun h cap1 ret1 => (clipboard_read_rejected s k cap1 ret1 hk).1 h
  have hsz : (to_size_t (s.clipboard_lengths k) : Int) = s.clipboard_lengths k :=
    to_size_t_of_nonneg _ hlen0 (by omega)
  obtain ⟨ha, hb, hc⟩ := clipboard_read_rejected s k cap ret hk
  have hretry : ∀ (buf : List Byte) (cap1 : Nat), 0 < s.number_of_active_entries →
      s.clipboard k = some buf → (buf.length : Int) = s.clipboard_lengths k →
      s.clipboard_lengths k ≤ (cap1 : Int) →
      ∃ s2, clipboard_read s cap1 OK = some (s.clipboard_lengths k, s2, buf) := by
    intro buf cap1 hpos hbuf hbl hc1
    have h := clipboard_read_success s k cap1 buf hpos hk hlen0 (by omega) hc1 hbuf (by omega)
    have ht : (s.clipboard_lengths k).toNat = buf.length := by omega
    rw [ht, List.take_length] at h
    exact ⟨_, h⟩
  refine ⟨?_, ?_, hempty⟩
  · intro h
    by_cases hcount : s.number_of_active_entries ≤ 0
    · exact ⟨-1, by omega, ha hcount⟩
    by_cases hlt : cap < to_size_t (s.clipboard_lengths k)
    · exact ⟨-1, by omega, hb (by omega) hlt⟩
    · have hret : ret ≠ OK := by
        rcases h with h | h
        · omega
        · exact h
      have hneg : ret < 0 := by
        have : ret ≠ 0 := hret
        omega
      exact ⟨ret, hneg, hc (by omega) hlt hret⟩
  · intro r s1 out hread hr
    by_cases hcount : s.number_of_active_entries ≤ 0
    · rw [ha hcount] at hread
      have h := Option.some.inj hread
      have h1 : s = s1 := congrArg (fun x => x.2.1) h
      have h2 : [] = out := congrArg (fun x => x.2.2) h
      subst h1
      exact ⟨rfl, h2.symm, hretry⟩
    by_cases hlt : cap < to_size_t (s.clipboard_lengths k)
    · rw [hb (by omega) hlt] at hread
      have h := Option.some.inj hread
      have h1 : s = s1 := congrArg (fun x => x.2.1) h
      have h2 : [] = out := congrArg (fun x => x.2.2) h
      subst h1
      exact ⟨rfl, h2.symm, hretry⟩
    by_cases hret : ret ≠ OK
    · rw [hc (by omega) hlt hret] at hread
      have h := Option.some.inj hread
      have h1 : s = s1 := congrArg (fun x => x.2.1) h
      have h2 : [] = out := congrArg (fun x => x.2.2) h
      subst h1
      exact ⟨rfl, h2.symm, hretry⟩
    · exfalso
      unfold clipboard_read at hread
      rw [if_neg hcount, hk] at hread
      simp only [] at hread
      rw [if_neg hlt, if_neg hret] at hread
      split at hread
      · exact absurd hread (by simp)
      · have h5 : to_ssize_t (if cap > to_size_t (s.clipboard_lengths k)
            then to_size_t (s.clipboard_lengths k) else cap) = r :=
          congrArg Prod.fst (Option.some.inj hread)
        have h6 : (if cap > to_size_t (s.clipboard_lengths k)
            then to_size_t (s.clipboard_lengths k) else cap) = to_size_t (s.clipboard_lengths k) := by
          split_ifs with hgt
          · rfl
          · omega
        rw [h6, to_ssize_t_small _ (by omega)] at h5
        omega

/-- Witness of C9 (amended): the store with two entries, read at slot 0 with
capacity 0 and then with capacity 10. -/
theorem read_failure_keeps_entry_witness :
    (∃ r, r < 0 ∧ clipboard_read two_entries 0 OK = some (r, two_entries, [])) ∧
    ∃ s2, clipboard_read two_entries 10 OK = some (1, s2, [65]) :=
  ⟨(read_failure_keeps_entry two_entries 0 0 OK rfl (by decide) (by decide) (by decide)).1
      (Or.inl (by decide)),
   match (read_failure_keeps_entry two_entries 0 0 OK rfl (by decide) (by decide)
      (by decide)).1 (Or.inl (by decide)) with
   | ⟨r, hr, hread⟩ =>
     ((read_failure_keeps_entry two_entries 0 0 OK rfl (by decide) (by decide) (by decide)).2.1
        r two_entries [] hread hr).2.2 [65] 10 (by decide) (by decide) (by decide) (by decide)⟩

/-! ## The entry counter and the number of occupied slots -/

theorem countP_update_some (c : Fin 100 → Option (List Byte)) (k : Fin 100) (v : List Byte)
    (h : c k = none) (l : List (Fin 100)) (hl : l.Nodup) :
    l.countP (fun i => (Function.update c k (some v) i).isSome) =
      l.countP (fun i => (c i).isSome) + (if k ∈ l then 1 else 0) := by
  induction l with
  | nil => simp
  | cons a l ih =>
    have hnd := List.nodup_cons.mp hl
    rw [List.countP_cons, List.countP_cons, ih hnd.2]
    by_cases hak : a = k
    · subst hak
      have hnot : a ∉ l := hnd.1
      simp [h, hnot]
    · have hka : ¬ k = a := fun e => hak e.symm
      simp [Function.update_noteq hak, List.mem_cons, hka]
      omega

theorem occupied_update_some (c : Fin 100 → Option (List Byte)) (k : Fin 100) (v : List Byte)
    (h : c k = none) : occupied (Function.update c k (some v)) = occupied c + 1 := by
  unfold occupied
  rw [countP_update_some c k v h _ (List.nodup_finRange 100)]
  simp [List.mem_finRange]

theorem update_none_of_none (c : Fin 100 → Option (List Byte)) (k : Fin 100) (h : c k = none) :
    Function.update c k none = c := by
  rw [← h]
  exact Function.update_eq_self k c

theorem occupied_of_no_free (c : Fin 100 → Option (List Byte)) (h : ∀ i, c i ≠ none) :
    occupied c = 100 := by
  unfold occupied
  have hall : ∀ a ∈ List.finRange 100, (fun i => (c i).isSome) a = true := by
    intro a _
    cases hc : c a with
    | none => exact absurd hc (h a)
    | some b => simp [hc]
  rw [List.countP_eq_length.mpr hall, List.length_finRange]

theorem find_first_free_index_cases (s : Store)
    (hinv : s.number_of_active_entries = (occupied s.clipboard : Int)) :
    (find_first_free_index s = -1 ∧ s.number_of_active_entries ≥ 100) ∨
      ∃ k : Fin 100, find_first_free_index s = (k.val : Int) := by
  unfold find_first_free_index
  simp only [MAX_CLIPBOARD_ENTRIES]
  by_cases h1 : s.number_of_active_entries ≥ ((100 : Nat) : Int)
  · rw [if_pos h1]
    exact Or.inl ⟨rfl, by push_cast at h1; exact h1⟩
  · rw [if_neg h1]
    by_cases hfree : ∃ j : Fin 100, s.clipboard j = none
    · obtain ⟨j, hj⟩ := hfree
      obtain ⟨k, _, _, _, hk⟩ :=
        find_first_free_loop_some s.clipboard 100 0 (by omega) ⟨j, Nat.zero_le _, hj⟩
      exact Or.inr ⟨k, hk⟩
    · have hall : ∀ i, s.clipboard i ≠ none := fun i hi => hfree ⟨i, hi⟩
      have := occupied_of_no_free s.clipboard hall
      push_cast at h1
      omega

theorem counter_exact_step (s : Store) (r : Request) (hinv : counter_exact s)
    (hok : control_or_write_to_free s r = true) :
    ∃ res, dispatch s r = some res ∧ counter_exact res.2 := by
  obtain ⟨hcnt, hcur⟩ := hinv
  cases r with
  | dev_open => simp [control_or_write_to_free] at hok
  | dev_close => simp [control_or_write_to_free] at hok
  | read size copy_ret => simp [control_or_write_to_free] at hok
  | ioctl request =>
    refine ⟨clipboard_ioctl s request, rfl, ?_⟩
    unfold clipboard_ioctl
    split_ifs with h1 h2 h3
    · exact ⟨hcnt, hcur⟩
    · refine ⟨hcnt, ?_⟩
      intro hnone
      rcases find_first_free_index_cases s hcnt with ⟨_, h⟩ | ⟨k, hk⟩
      · exact h
      · simp only [hk] at hnone
        rw [index?_natCast k.val k.isLt] at hnone
        exact absurd hnone (by simp)
    · refine ⟨hcnt, ?_⟩
      intro hnone
      simp only [MAX_CLIPBOARD_ENTRIES] at h3
      simp only [] at hnone
      rw [index?_natCast request h3] at hnone
      exact absurd hnone (by simp)
    · exact ⟨hcnt, hcur⟩
  | write p malloc_ok copy_ret =>
    simp only [control_or_write_to_free, Bool.and_eq_true, decide_eq_true_eq] at hok
    obtain ⟨hp, hslot⟩ := hok
    simp only [dispatch]
    by_cases hfull : s.number_of_active_entries ≥ 100
    · rw [clipboard_write_full s p malloc_ok copy_ret hfull]
      exact ⟨_, rfl, hcnt, hcur⟩
    · cases hk : index? s.current_index with
      | none => exact absurd (hcur hk) hfull
      | some k =>
        rw [hk] at hslot
        have hnone : s.clipboard k = none := by
          cases hc : s.clipboard k with
          | none => rfl
          | some b => simp [hc] at hslot
        unfold clipboard_write
        have h1 : ¬ (s.number_of_active_entries ≥ ((MAX_CLIPBOARD_ENTRIES : Nat) : Int)) := by
          simp only [MAX_CLIPBOARD_ENTRIES]
          push_cast
          exact hfull
        have h2 : ¬ (p.length > MAX_LENGTH_ENTRY) := by
          simp only [MAX_LENGTH_ENTRY]
          omega
        rw [if_neg h1, if_neg h2, hk]
        simp only []
        split_ifs with h3 h4
        · refine ⟨_, rfl, ?_, ?_⟩
          · simp only [update_none_of_none s.clipboard k hnone]
            exact hcnt
          · intro hn
            rw [hk] at hn
            exact absurd hn (by simp)
        · refine ⟨_, rfl, ?_, ?_⟩
          · simp only [update_none_of_none s.clipboard k hnone]
            exact hcnt
          · intro hn
            rw [hk] at hn
            exact absurd hn (by simp)
        · refine ⟨_, rfl, ?_, ?_⟩
          · simp only [occupied_update_some s.clipboard k p hnone]
            push_cast
            omega
          · intro hn
            rw [hk] at hn
            exact absurd hn (by simp)

theorem counter_exact_run (rs : List Request) (s : Store) (hinv : counter_exact s)
    (hok : all_along control_or_write_to_free s rs = true) :
    ∃ s1, run s rs = some s1 ∧ counter_exact s1 := by
  induction rs generalizing s with
  | nil => exact ⟨s, rfl, hinv⟩
  | cons r rs ih =>
    simp only [all_along, Bool.and_eq_true] at hok
    obtain ⟨hr, hrest⟩ := hok
    obtain ⟨res, hres, hinv1⟩ := counter_exact_step s r hinv hr
    rw [hres] at hrest
    simp only [run, hres]
    exact ih res.2 hinv1 hrest

/-- C3, counterexample: from the fresh store, select slot 0 and write twice.
Both writes succeed; the counter is 2 while one slot is occupied. -/
theorem counter_overcounts_overwrite_counterexample :
    all_along control_or_write empty_store
        [Request.ioctl 0, Request.write [65] true OK, Request.write [66] true OK] = true ∧
      ∃ s, run empty_store
          [Request.ioctl 0, Request.write [65] true OK, Request.write [66] true OK] = some s ∧
        s.number_of_active_entries = 2 ∧ occupied s.clipboard = 1 :=
  ⟨by decide, _, rfl, by decide, by decide⟩

/-- C3, amended: every sequence of control calls and writes of at most 200
bytes, each write arriving while the slot at `current_index` is empty, runs to
a state from the fresh store (arrays zero-filled), and in that state
`number_of_active_entries` equals the number of non-empty slots; `malloc` and
the transfer may fail at will. -/
theorem counter_exact_without_overwrite (rs : List Request)
    (hok : all_along control_or_write_to_free empty_store rs = true) :
    ∃ s, run empty_store rs = some s ∧
      s.number_of_active_entries = (occupied s.clipboard : Int) := by
  have h0 : counter_exact empty_store := by
    refine ⟨?_, ?_⟩
    · have : occupied empty_store.clipboard = 0 := by
        unfold occupied
        simp [empty_store]
      rw [this]
      rfl
    · intro h
      exact absurd h (by decide)
  obtain ⟨s1, h1, h2⟩ := counter_exact_run rs empty_store h0 hok
  exact ⟨s1, h1, h2.1⟩

/-- Witness of C3 (amended): two writes into the first free slot, the second
with a failing transfer, then a third write. -/
theorem counter_exact_without_overwrite_witness :
    ∃ s, run empty_store
        [Request.ioctl 100, Request.write [65] true OK, Request.ioctl 100,
         Request.write [66] true (-14), Request.write [67] true OK] = some s ∧
      s.number_of_active_entries = (occupied s.clipboard : Int) :=
  counter_exact_without_overwrite _ (by decide)

/-! ## Save and restore -/

theorem stack_buffer_length (n : Nat) (g : List Byte) : (stack_buffer n g).length = n := by
  unfold stack_buffer
  rw [List.length_take, List.length_append, List.length_replicate]
  omega

theorem int_roundtrip (x : Int) (h0 : -2147483648 ≤ x) (h1 : x < 2147483648) :
    to_ssize_t (to_size_t x) = x := by
  unfold to_ssize_t to_size_t
  split_ifs <;> omega

theorem sprintf_pair_some (buffer2 a b : List Byte) (hlen : buffer2.length = 401)
    (ha : a.length ≤ 200) (hb : b.length ≤ 200) :
    ∃ out, sprintf_pair buffer2 a b = some out ∧ out.length = 401 := by
  unfold sprintf_pair
  have h : (a ++ b ++ [0]).length ≤ buffer2.length := by
    simp only [List.length_append, List.length_singleton]
    omega
  rw [if_pos h]
  refine ⟨_, rfl, ?_⟩
  rw [List.length_append, List.length_drop]
  omega

/-- One iteration of the save loop goes through and touches none of the three
scalar keys. -/
theorem save_pair_some (env : SaveEnv) (s : Store) (i : Nat) (h : i + 1 < 100)
    (st : List Byte × DS) (hbuf : st.1.length = 401)
    (hlen : ∀ j, 0 ≤ s.clipboard_lengths j ∧ s.clipboard_lengths j ≤ 200)
    (hstr : ∀ j, (c_string env j (s.clipboard j)).length ≤ 200) :
    ∃ st1, save_pair env s i h st = some st1 ∧ st1.1.length = 401 ∧
      st1.2.number_entries = st.2.number_entries ∧ st1.2.index = st.2.index ∧
      st1.2.lengths = st.2.lengths := by
  unfold save_pair
  split_ifs with hpos
  · obtain ⟨out, hout, hol⟩ := sprintf_pair_some st.1 _ _ hbuf (hstr ⟨i, by omega⟩) (hstr ⟨i + 1, h⟩)
    rw [hout]
    simp only []
    have h1 := hlen ⟨i, by omega⟩
    have h2 := hlen ⟨i + 1, h⟩
    rw [if_pos (by omega)]
    exact ⟨_, rfl, hol, rfl, rfl, rfl⟩
  · exact ⟨st, rfl, hbuf, rfl, rfl, rfl⟩

theorem save_loop_some (env : SaveEnv) (s : Store)
    (hlen : ∀ j, 0 ≤ s.clipboard_lengths j ∧ s.clipboard_lengths j ≤ 200)
    (hstr : ∀ j, (c_string env j (s.clipboard j)).length ≤ 200)
    (fuel i : Nat) (st : List Byte × DS) (hbuf : st.1.length = 401) (heven : i % 2 = 0) :
    ∃ st1, save_loop env s fuel i st = some st1 ∧
      st1.2.number_entries = st.2.number_entries ∧ st1.2.index = st.2.index ∧
      st1.2.lengths = st.2.lengths := by
  induction fuel generalizing i st with
  | zero => exact ⟨st, rfl, rfl, rfl, rfl⟩
  | succ n ih =>
    unfold save_loop
    by_cases hi : i < 100
    · have hi1 : i + 1 < 100 := by omega
      rw [if_pos hi, dif_pos hi1]
      obtain ⟨st1, h1, hb1, ha, hb, hc⟩ := save_pair_some env s i hi1 st hbuf hlen hstr
      rw [h1]
      simp only []
      obtain ⟨st2, h2, ha2, hb2, hc2⟩ := ih (i + 2) st1 hb1 (by omega)
      exact ⟨st2, h2, ha2.trans ha, hb2.trans hb, hc2.trans hc⟩
    · rw [if_neg hi]
      exact ⟨st, rfl, rfl, rfl, rfl⟩

theorem ds_retrieve_mem_some (stored : Option (List Byte)) (buf : List Byte) (n : Nat)
    (hn : n ≤ buf.length) :
    ∃ out, ds_retrieve_mem stored buf n = some out ∧ out.length = buf.length := by
  unfold ds_retrieve_mem
  cases stored with
  | none => exact ⟨buf, rfl, rfl⟩
  | some data =>
    simp only []
    have h : min data.length n ≤ buf.length := le_trans (min_le_right _ _) hn
    rw [if_pos h]
    refine ⟨_, rfl, ?_⟩
    rw [List.length_append, List.length_take, List.length_drop]
    have : min (min data.length n) data.length = min data.length n := by
      apply min_eq_left
      exact min_le_left _ _
    rw [this]
    omega

theorem restored_slot_filled (lengths : Fin 100 → Int) (c c0 : Fin 100 → Option (List Byte))
    (j : Fin 100) (b : List Byte) (hpos : 0 < lengths j) (hc : c j = some b)
    (hb : (b.length : Int) = lengths j) : restored_slot lengths c c0 j :=
  ⟨fun _ => ⟨b, hc, hb⟩, fun hle => absurd hpos (by omega)⟩

theorem restored_slot_kept (lengths : Fin 100 → Int) (c c0 : Fin 100 → Option (List Byte))
    (j : Fin 100) (hz : lengths j ≤ 0) (hc : c j = c0 j) : restored_slot lengths c c0 j :=
  ⟨fun hp => absurd hp (by omega), fun _ => hc⟩

/-- One iteration of the restore loop goes through, sets the two slots of its
pair and no other. -/
theorem restore_pair_some (env : RestoreEnv) (lengths : Fin 100 → Int) (i : Nat)
    (h : i + 1 < 100) (st : List Byte × (Fin 100 → Option (List Byte)) × DS)
    (hbuf : st.1.length = 400)
    (hlen : ∀ j, 0 ≤ lengths j ∧ lengths j ≤ 200)
    (hm : ∀ j, env.malloc_ok j = true) :
    ∃ st1, restore_pair env lengths i h st = some st1 ∧ st1.1.length = 400 ∧
      (∀ j : Fin 100, j.val ≠ i → j.val ≠ i + 1 → st1.2.1 j = st.2.1 j) ∧
      (∀ j : Fin 100, j.val = i ∨ j.val = i + 1 → restored_slot lengths st1.2.1 st.2.1 j) := by
  have hi0 : i < 100 := by omega
  have h1 := hlen ⟨i, hi0⟩
  have h2 := hlen ⟨i + 1, h⟩
  have hne : (⟨i, hi0⟩ : Fin 100) ≠ ⟨i + 1, h⟩ := by
    intro e
    have := congrArg Fin.val e
    simp at this
  unfold restore_pair
  by_cases hpos : lengths ⟨i, hi0⟩ + lengths ⟨i + 1, h⟩ > 0
  · rw [if_pos hpos]
    obtain ⟨buffer2, hret, hbl⟩ := ds_retrieve_mem_some (st.2.2.clipboard i) st.1
      (lengths ⟨i, hi0⟩ + lengths ⟨i + 1, h⟩).toNat (by omega)
    rw [hret]
    simp only []
    have hb400 : buffer2.length = 400 := hbl.trans hbuf
    have hlenA : (((buffer2.take (lengths ⟨i, hi0⟩).toNat).length : Nat) : Int)
        = lengths ⟨i, hi0⟩ := by
      rw [List.length_take]
      omega
    have hlenB : ((((buffer2.drop (lengths ⟨i, hi0⟩).toNat).take
        (lengths ⟨i + 1, h⟩).toNat).length : Nat) : Int) = lengths ⟨i + 1, h⟩ := by
      rw [List.length_take, List.length_drop]
      omega
    by_cases ha : lengths ⟨i, hi0⟩ > 0
    · have hfirst : env.malloc_ok ⟨i, hi0⟩ = true ∧
          (lengths ⟨i, hi0⟩).toNat ≤ buffer2.length := ⟨hm _, by omega⟩
      rw [if_pos ha, if_pos hfirst]
      simp only []
      by_cases hb : lengths ⟨i + 1, h⟩ > 0
      · have hsecond : env.malloc_ok ⟨i + 1, h⟩ = true ∧ 0 ≤ lengths ⟨i, hi0⟩ ∧
            (lengths ⟨i, hi0⟩).toNat + (lengths ⟨i + 1, h⟩).toNat ≤ buffer2.length :=
          ⟨hm _, h1.1, by omega⟩
        rw [if_pos hb, if_pos hsecond]
        refine ⟨_, rfl, hb400, ?_, ?_⟩
        · intro j hj1 hj2
          have e1 : j ≠ ⟨i + 1, h⟩ := fun e => hj2 (congrArg Fin.val e)
          have e2 : j ≠ ⟨i, hi0⟩ := fun e => hj1 (congrArg Fin.val e)
          simp only [Function.update_noteq e1, Function.update_noteq e2]
        · intro j hj
          rcases hj with hj | hj
          · have e : j = ⟨i, hi0⟩ := Fin.ext hj
            rw [e]
            exact restored_slot_filled lengths _ _ _ _ ha
              (by simp only [Function.update_noteq hne, Function.update_same]) hlenA
          · have e : j = ⟨i + 1, h⟩ := Fin.ext hj
            rw [e]
            exact restored_slot_filled lengths _ _ _ _ hb
              (by simp only [Function.update_same]) hlenB
      · rw [if_neg hb]
        refine ⟨_, rfl, hb400, ?_, ?_⟩
        · intro j hj1 hj2
          have e2 : j ≠ ⟨i, hi0⟩ := fun e => hj1 (congrArg Fin.val e)
          simp only [Function.update_noteq e2]
        · intro j hj
          rcases hj with hj | hj
          · have e : j = ⟨i, hi0⟩ := Fin.ext hj
            rw [e]
            exact restored_slot_filled lengths _ _ _ _ ha
              (by simp only [Function.update_same]) hlenA
          · have e : j = ⟨i + 1, h⟩ := Fin.ext hj
            rw [e]
            exact restored_slot_kept lengths _ _ _ (by omega)
              (by simp only [Function.update_noteq hne.symm])
    · rw [if_neg ha]
      simp only []
      have hb : lengths ⟨i + 1, h⟩ > 0 := by omega
      have hsecond : env.malloc_ok ⟨i + 1, h⟩ = true ∧ 0 ≤ lengths ⟨i, hi0⟩ ∧
          (lengths ⟨i, hi0⟩).toNat + (lengths ⟨i + 1, h⟩).toNat ≤ buffer2.length :=
        ⟨hm _, h1.1, by omega⟩
      rw [if_pos hb, if_pos hsecond]
      refine ⟨_, rfl, hb400, ?_, ?_⟩
      · intro j hj1 hj2
        have e1 : j ≠ ⟨i + 1, h⟩ := fun e => hj2 (congrArg Fin.val e)
        simp only [Function.update_noteq e1]
      · intro j hj
        rcases hj with hj | hj
        · have e : j = ⟨i, hi0⟩ := Fin.ext hj
          rw [e]
          exact restored_slot_kept lengths _ _ _ (by omega)
            (by simp only [Function.update_noteq hne])
        · have e : j = ⟨i + 1, h⟩ := Fin.ext hj
          rw [e]
          exact restored_slot_filled lengths _ _ _ _ hb
            (by simp only [Function.update_same]) hlenB
  · rw [if_neg hpos]
    refine ⟨st, rfl, hbuf, fun _ _ _ => rfl, ?_⟩
    intro j hj
    rcases hj with hj | hj
    · have e : j = ⟨i, hi0⟩ := Fin.ext hj
      rw [e]
      exact restored_slot_kept lengths _ _ _ (by omega) rfl
    · have e : j = ⟨i + 1, h⟩ := Fin.ext hj
      rw [e]
      exact restored_slot_kept lengths _ _ _ (by omega) rfl

theorem restored_slot_congr (lengths : Fin 100 → Int) (c c1 c0 c2 : Fin 100 → Option (List Byte))
    (j : Fin 100) (h1 : c1 j = c j) (h2 : c0 j = c2 j) (h : restored_slot lengths c c0 j) :
    restored_slot lengths c1 c2 j := by
  unfold restored_slot at h ⊢
  rw [h1, ← h2]
  exact h

/-- The restore loop goes through; slots below its start keep their pointer, the
others are restored. -/
theorem restore_loop_some (env : RestoreEnv) (lengths : Fin 100 → Int)
    (hlen : ∀ j, 0 ≤ lengths j ∧ lengths j ≤ 200) (hm : ∀ j, env.malloc_ok j = true)
    (fuel i : Nat) (st : List Byte × (Fin 100 → Option (List Byte)) × DS)
    (hbuf : st.1.length = 400) (heven : i % 2 = 0) (hfuel : 100 ≤ i + 2 * fuel) :
    ∃ st1, restore_loop env lengths fuel i st = some st1 ∧
      (∀ j : Fin 100, j.val < i → st1.2.1 j = st.2.1 j) ∧
      (∀ j : Fin 100, i ≤ j.val → restored_slot lengths st1.2.1 st.2.1 j) := by
  induction fuel generalizing i st with
  | zero =>
    refine ⟨st, rfl, fun _ _ => rfl, ?_⟩
    intro j hj
    have := j.isLt
    omega
  | succ n ih =>
    unfold restore_loop
    by_cases hi : i < 100
    · have hi1 : i + 1 < 100 := by omega
      rw [if_pos hi, dif_pos hi1]
      obtain ⟨st1, hp, hb1, hother, hpair⟩ := restore_pair_some env lengths i hi1 st hbuf hlen hm
      rw [hp]
      simp only []
      obtain ⟨st2, hl, hlow, hhigh⟩ := ih (i + 2) st1 hb1 (by omega) (by omega)
      refine ⟨st2, hl, ?_, ?_⟩
      · intro j hj
        rw [hlow j (by omega)]
        exact hother j (by omega) (by omega)
      · intro j hj
        by_cases hin : j.val = i ∨ j.val = i + 1
        · exact restored_slot_congr lengths st1.2.1 st2.2.1 st.2.1 st.2.1 j
            (hlow j (by omega)) rfl (hpair j hin)
        · exact restored_slot_congr lengths st2.2.1 st2.2.1 st1.2.1 st.2.1 j rfl
            (hother j (by omega) (by omega)) (hhigh j (by omega))
    · rw [if_neg hi]
      refine ⟨st, rfl, fun _ _ => rfl, ?_⟩
      intro j
      have := j.isLt
      omega

/-- C2, counterexample.  First store: slot 0 holds a zero-length entry; its pair
sum is 0, nothing is published for it, and after restore slot 0 is empty.
Second store: slots 0 and 1 hold `00 41` and `42 00`; `%s` stops at the NUL
bytes, and after restore slot 0 holds `42 00`. -/
theorem save_restore_loses_entries_counterexample :
    (∃ ds1 s1 ds2,
      sef_cb_lu_state_save zero_length_entry plain_save_env empty_ds = some (OK, ds1) ∧
      sef_cb_init InitType.SEF_INIT_LU zero_memory plain_restore_env ds1 =
        some (OK, s1, ds2, false) ∧
      zero_length_entry.clipboard 0 = some [] ∧ s1.clipboard 0 = none) ∧
    (∃ ds1 s1 ds2,
      sef_cb_lu_state_save binary_entries plain_save_env empty_ds = some (OK, ds1) ∧
      sef_cb_init InitType.SEF_INIT_LU zero_memory plain_restore_env ds1 =
        some (OK, s1, ds2, false) ∧
      binary_entries.clipboard 0 = some [0, 65] ∧ s1.clipboard 0 = some [66, 0]) :=
  ⟨⟨_, _, _, rfl, rfl, by decide, by decide⟩, ⟨_, _, _, rfl, rfl, by decide, by decide⟩⟩

/-- C2, amended: for a store whose recorded lengths lie in [0, 200] and whose
counter and cursor are 32-bit values, with the two strings `sprintf` reads for
each slot at most 200 characters long and every `malloc` of restore succeeding,
`sef_cb_lu_state_save` followed by `sef_cb_init` for a live update on zero-filled
arrays runs through over a data store that never fails and reproduces
`number_of_active_entries`, `current_index` and every recorded length; a slot
whose saved length is positive comes back occupied by a buffer of exactly that
length, and a slot whose saved length is 0, an empty slot as well as a
zero-length entry, comes back empty.  Nothing is said about the bytes in the
restored buffers. -/
theorem save_restore_keeps_counts_and_lengths (s : Store) (env : SaveEnv) (renv : RestoreEnv)
    (ds : DS)
    (hcount : -2147483648 ≤ s.number_of_active_entries ∧ s.number_of_active_entries < 2147483648)
    (hcur : -2147483648 ≤ s.current_index ∧ s.current_index < 2147483648)
    (hlen : ∀ j, 0 ≤ s.clipboard_lengths j ∧ s.clipboard_lengths j ≤ 200)
    (hstr : ∀ j, (c_string env j (s.clipboard j)).length ≤ 200)
    (hm : ∀ j, renv.malloc_ok j = true) :
    ∃ ds1 s1 ds2,
      sef_cb_lu_state_save s env ds = some (OK, ds1) ∧
      sef_cb_init InitType.SEF_INIT_LU zero_memory renv ds1 = some (OK, s1, ds2, false) ∧
      s1.number_of_active_entries = s.number_of_active_entries ∧
      s1.current_index = s.current_index ∧
      s1.clipboard_lengths = s.clipboard_lengths ∧
      ∀ j, (0 < s.clipboard_lengths j →
              ∃ b, s1.clipboard j = some b ∧ (b.length : Int) = s.clipboard_lengths j) ∧
           (s.clipboard_lengths j = 0 → s1.clipboard j = none) := by
  obtain ⟨st1, hsave, hne, hix, hls⟩ := save_loop_some env s hlen hstr 50 0
    (stack_buffer (2 * MAX_LENGTH_ENTRY + 1) env.buffer2,
     { ds with
       number_entries := some (to_size_t s.number_of_active_entries)
       index := some (to_size_t s.current_index)
       lengths := some s.clipboard_lengths })
    (by rw [stack_buffer_length]; rfl) (by decide)
  simp only [] at hne hix hls
  have hl : st1.2.lengths.getD (fun _ => (0 : Int)) = s.clipboard_lengths := by
    rw [hls]
    rfl
  obtain ⟨st2, hrest, _, hslots⟩ := restore_loop_some renv s.clipboard_lengths hlen hm 50 0
    (stack_buffer (2 * MAX_LENGTH_ENTRY) renv.buffer2, (fun _ => none),
     { st1.2 with number_entries := none, index := none, lengths := none })
    (by rw [stack_buffer_length]; rfl) (by decide) (by decide)
  refine ⟨st1.2,
    { number_of_active_entries := to_ssize_t (st1.2.number_entries.getD renv.entries)
      current_index := to_ssize_t (st1.2.index.getD renv.index)
      clipboard := st2.2.1
      clipboard_lengths := s.clipboard_lengths }, st2.2.2, ?_, ?_, ?_, ?_, rfl, ?_⟩
  · unfold sef_cb_lu_state_save
    rw [hsave]
  · unfold sef_cb_init lu_state_restore
    simp only [zero_memory, hl, hrest]
  · simp only [hne, Option.getD_some]
    exact int_roundtrip _ hcount.1 hcount.2
  · simp only [hix, Option.getD_some]
    exact int_roundtrip _ hcur.1 hcur.2
  · intro j
    have hj := hslots j (Nat.zero_le _)
    unfold restored_slot at hj
    simp only [] at hj
    exact ⟨hj.1, fun hz => hj.2 (by omega)⟩

/-- Witness of C2 (amended): the store with two one-byte entries. -/
theorem save_restore_keeps_counts_and_lengths_witness :
    ∃ ds1 s1 ds2,
      sef_cb_lu_state_save two_entries plain_save_env empty_ds = some (OK, ds1) ∧
      sef_cb_init InitType.SEF_INIT_LU zero_memory plain_restore_env ds1 =
        some (OK, s1, ds2, false) ∧
      s1.number_of_active_entries = two_entries.number_of_active_entries ∧
      s1.current_index = two_entries.current_index ∧
      s1.clipboard_lengths = two_entries.clipboard_lengths ∧
      ∀ j, (0 < two_entries.clipboard_lengths j →
              ∃ b, s1.clipboard j = some b ∧ (b.length : Int) = two_entries.clipboard_lengths j) ∧
           (two_entries.clipboard_lengths j = 0 → s1.clipboard j = none) :=
  save_restore_keeps_counts_and_lengths two_entries plain_save_env plain_restore_env empty_ds
    (by decide) (by decide) (by decide) (by decide) (fun _ => rfl)

/-! ## What a request can do to the store -/

/-- The four ways `clipboard_write` returns: turned away by a guard, `malloc`
failed, the transfer failed, or the payload was stored. -/
theorem clipboard_write_result (s : Store) (p : List Byte) (malloc_ok : Bool) (copy_ret : Int)
    (res : Int × Store) (h : clipboard_write s p malloc_ok copy_ret = some res) :
    res = (-1, s) ∨
    (∃ k, index? s.current_index = some k ∧
      res = (-1, { s with clipboard := Function.update s.clipboard k none })) ∨
    (∃ k, index? s.current_index = some k ∧ copy_ret ≠ OK ∧
      res = (copy_ret, { s with clipboard := Function.update s.clipboard k none })) ∨
    (∃ k, index? s.current_index = some k ∧ s.number_of_active_entries < 100 ∧
      p.length ≤ 200 ∧
      res = ((p.length : Int),
        { s with
          clipboard := Function.update s.clipboard k (some p)
          number_of_active_entries := s.number_of_active_entries + 1
          clipboard_lengths := Function.update s.clipboard_lengths k (p.length : Int) })) := by
  unfold clipboard_write at h
  simp only [MAX_CLIPBOARD_ENTRIES, MAX_LENGTH_ENTRY] at h
  by_cases h1 : s.number_of_active_entries ≥ ((100 : Nat) : Int)
  · rw [if_pos h1] at h
    exact Or.inl (Option.some.inj h).symm
  rw [if_neg h1] at h
  by_cases h2 : p.length > 200
  · rw [if_pos h2] at h
    exact Or.inl (Option.some.inj h).symm
  rw [if_neg h2] at h
  cases hk : index? s.current_index with
  | none =>
    rw [hk] at h
    exact absurd h (by simp)
  | some k =>
    rw [hk] at h
    simp only [] at h
    by_cases h3 : malloc_ok = false
    · rw [if_pos h3] at h
      exact Or.inr (Or.inl ⟨k, rfl, (Option.some.inj h).symm⟩)
    rw [if_neg h3] at h
    by_cases h4 : copy_ret ≠ OK
    · rw [if_pos h4] at h
      exact Or.inr (Or.inr (Or.inl ⟨k, rfl, h4, (Option.some.inj h).symm⟩))
    rw [if_neg h4] at h
    refine Or.inr (Or.inr (Or.inr ⟨k, rfl, ?_, by omega, (Option.some.inj h).symm⟩))
    push_cast at h1
    omega

/-- The three ways `clipboard_read` returns: refused with -1, the transfer
failed, or the current slot was consumed. -/
theorem clipboard_read_result (s : Store) (size : Nat) (copy_ret : Int)
    (res : Int × Store × List Byte) (h : clipboard_read s size copy_ret = some res) :
    res = (-1, s, []) ∨
    (copy_ret ≠ OK ∧ res = (copy_ret, s, [])) ∨
    (∃ k, index? s.current_index = some k ∧ 0 < s.number_of_active_entries ∧
      res.1 = to_ssize_t (to_size_t (s.clipboard_lengths k)) ∧
      res.2.1 = { s with
                  clipboard := Function.update s.clipboard k none
                  clipboard_lengths := Function.update s.clipboard_lengths k 0
                  number_of_active_entries := s.number_of_active_entries - 1 }) := by
  unfold clipboard_read at h
  by_cases h1 : s.number_of_active_entries ≤ 0
  · rw [if_pos h1] at h
    exact Or.inl (Option.some.inj h).symm
  rw [if_neg h1] at h
  cases hk : index? s.current_index with
  | none =>
    rw [hk] at h
    exact absurd h (by simp)
  | some k =>
    rw [hk] at h
    simp only [] at h
    by_cases h2 : size < to_size_t (s.clipboard_lengths k)
    · rw [if_pos h2] at h
      exact Or.inl (Option.some.inj h).symm
    rw [if_neg h2] at h
    by_cases h3 : copy_ret ≠ OK
    · rw [if_pos h3] at h
      exact Or.inr (Or.inl ⟨h3, (Option.some.inj h).symm⟩)
    rw [if_neg h3] at h
    have hsz : (if size > to_size_t (s.clipboard_lengths k)
        then to_size_t (s.clipboard_lengths k) else size) = to_size_t (s.clipboard_lengths k) := by
      split_ifs with hgt
      · rfl
      · omega
    rw [hsz] at h
    split at h
    · exact absurd h (by simp)
    · have h5 := (Option.some.inj h).symm
      refine Or.inr (Or.inr ⟨k, rfl, by omega, ?_, ?_⟩)
      · rw [h5]
      · rw [h5]

/-- A control call changes nothing but the cursor. -/
theorem clipboard_ioctl_frame (s : Store) (request : Nat) :
    (clipboard_ioctl s request).2.clipboard = s.clipboard ∧
    (clipboard_ioctl s request).2.clipboard_lengths = s.clipboard_lengths ∧
    (clipboard_ioctl s request).2.number_of_active_entries = s.number_of_active_entries := by
  unfold clipboard_ioctl
  split_ifs <;> exact ⟨rfl, rfl, rfl⟩

/-! ## Reading, the scenario, initialisation and the control codes -/

/-- C11: for a store with a positive counter whose cursor designates slot `k`,
with a recorded length `len` that is a non-negative `int` not larger than the
number of bytes the slot holds, and a capacity of at least `len`: a read whose
transfer-out succeeds returns `len` (not the capacity), delivers exactly the
first `len` stored bytes, leaves slot `k` empty with length 0, decrements the
counter by one, and leaves the cursor and every other slot and length as they
were. -/
theorem read_consumes_current_slot (s : Store) (k : Fin 100) (cap : Nat)
    (hpos : 0 < s.number_of_active_entries)
    (hk : index? s.current_index = some k)
    (h0 : 0 ≤ s.clipboard_lengths k) (h1 : s.clipboard_lengths k < 2147483648)
    (hcap : s.clipboard_lengths k ≤ (cap : Int))
    (hfit : s.clipboard_lengths k ≤ ((((s.clipboard k).getD []).length : Nat) : Int)) :
    ∃ s1, clipboard_read s cap OK =
        some (s.clipboard_lengths k, s1,
          ((s.clipboard k).getD []).take (s.clipboard_lengths k).toNat) ∧
      s1.clipboard k = none ∧ s1.clipboard_lengths k = 0 ∧
      s1.number_of_active_entries = s.number_of_active_entries - 1 ∧
      s1.current_index = s.current_index ∧
      ∀ j, j ≠ k →
        s1.clipboard j = s.clipboard j ∧ s1.clipboard_lengths j = s.clipboard_lengths j := by
  refine ⟨{ s with
            clipboard := Function.update s.clipboard k none
            clipboard_lengths := Function.update s.clipboard_lengths k 0
            number_of_active_entries := s.number_of_active_entries - 1 }, ?_, ?_, ?_, rfl, rfl, ?_⟩
  · cases hb : s.clipboard k with
    | some buf =>
      rw [hb] at hfit
      exact clipboard_read_success s k cap buf hpos hk h0 h1 hcap hb hfit
    | none =>
      rw [hb] at hfit
      simp only [Option.getD_none, List.length_nil, Nat.cast_zero] at hfit
      have hz : s.clipboard_lengths k = 0 := by omega
      have hsz : to_size_t (s.clipboard_lengths k) = 0 := by rw [hz]; rfl
      unfold clipboard_read
      rw [if_neg (by omega), hk]
      simp only [hsz, hb]
      rw [if_neg (by omega), if_neg (by simp)]
      have hsize : (if cap > 0 then 0 else cap) = 0 := by
        split_ifs with h
        · rfl
        · omega
      rw [hsize, hz]
      rfl
  · simp
  · simp
  · intro j hj
    exact ⟨by simp [Function.update_noteq hj], by simp [Function.update_noteq hj]⟩

/-- Witness of C11: slot 0 of the store with two entries, read with capacity 10. -/
theorem read_consumes_current_slot_witness :
    ∃ s1, clipboard_read two_entries 10 OK = some (1, s1, [65]) ∧
      s1.clipboard 0 = none ∧ s1.clipboard_lengths 0 = 0 ∧
      s1.number_of_active_entries = 1 ∧ s1.current_index = 0 ∧
      ∀ j, j ≠ 0 →
        s1.clipboard j = two_entries.clipboard j ∧
        s1.clipboard_lengths j = two_entries.clipboard_lengths j :=
  read_consumes_current_slot two_entries 0 10 (by decide) rfl (by decide) (by decide)
    (by decide) (by decide)

/-- C12: the end-to-end scenario on the fresh store, every external call
succeeding.  Control 3 returns 3; the write of `hello` returns 5; control 3 and a
read with capacity 10 return 5 and deliver `hello`; one more control 3 and read
with capacity 10 return -1, the `Empty` result. -/
theorem hello_scenario :
    (clipboard_ioctl empty_store 3).1 = 3 ∧
    ∃ s2 s4 s6,
      clipboard_write (clipboard_ioctl empty_store 3).2 hello true OK = some (5, s2) ∧
      (clipboard_ioctl s2 3).1 = 3 ∧
      clipboard_read (clipboard_ioctl s2 3).2 10 OK = some (5, s4, hello) ∧
      (clipboard_ioctl s4 3).1 = 3 ∧
      clipboard_read (clipboard_ioctl s4 3).2 10 OK = some (-1, s6, []) :=
  ⟨rfl, _, _, _, rfl, rfl, rfl, rfl, rfl⟩

/-- The store `sef_cb_init` leaves on a fresh start: the two scalars are set to 0,
the arrays hold what `malloc` returned. -/
theorem sef_cb_init_fresh (raw : RawMemory) (env : RestoreEnv) (ds : DS) :
    sef_cb_init InitType.SEF_INIT_FRESH raw env ds =
      some (OK, { number_of_active_entries := 0, current_index := 0,
                  clipboard := raw.clipboard, clipboard_lengths := raw.clipboard_lengths },
            ds, true) :=
  rfl

/-- C13: evaluation at the failing input.  On a fresh start where `malloc`
returns memory with old content (first pointer not `NULL`, first `int` 7),
`sef_cb_init` sets the counter and the cursor to 0 but leaves the arrays as it
got them: slot 0 is not empty and its recorded length is 7. -/
theorem fresh_start_keeps_allocated_content :
    ∃ s ds, sef_cb_init InitType.SEF_INIT_FRESH dirty_memory plain_restore_env empty_ds =
        some (OK, s, ds, true) ∧
      s.number_of_active_entries = 0 ∧ s.current_index = 0 ∧
      s.clipboard 0 = some [1] ∧ s.clipboard_lengths 0 = 7 :=
  ⟨_, _, sef_cb_init_fresh dirty_memory plain_restore_env empty_ds, rfl, rfl,
   by decide, by decide⟩

/-- C15: the control call with code 1337 returns 1337, and a code that is
neither 1337 nor in 0..100 returns `ENOTTY`; in both cases the store is exactly
the one before the call. -/
theorem control_debug_and_unsupported (s : Store) (c : Nat) :
    (c = 1337 → clipboard_ioctl s c = (1337, s)) ∧
    (c ≠ 1337 → 100 < c → clipboard_ioctl s c = (ENOTTY, s)) := by
  refine ⟨?_, ?_⟩
  · intro hc
    subst hc
    rfl
  · intro h1 h2
    unfold clipboard_ioctl
    have e1 : ¬ (c = DEBUG_CTL) := h1
    have e2 : ¬ (c = STATE_WRITE) := by simp only [STATE_WRITE]; omega
    have e3 : ¬ (c < MAX_CLIPBOARD_ENTRIES) := by simp only [MAX_CLIPBOARD_ENTRIES]; omega
    rw [if_neg e1, if_neg e2, if_neg e3]

/-- Witness of C15: the codes 1337 and 5000 on the store with two entries. -/
theorem control_debug_and_unsupported_witness :
    clipboard_ioctl two_entries 1337 = (1337, two_entries) ∧
    clipboard_ioctl two_entries 5000 = (ENOTTY, two_entries) :=
  ⟨(control_debug_and_unsupported two_entries 1337).1 rfl,
   (control_debug_and_unsupported two_entries 5000).2 (by decide) (by decide)⟩

/-! ## Where the code leaves the behaviour described -/

/-- The save loop does nothing from `i` on when every recorded length from `i` on
is 0. -/
theorem save_loop_idle (env : SaveEnv) (s : Store) (fuel i : Nat) (st : List Byte × DS)
    (heven : i % 2 = 0) (hz : ∀ j : Fin 100, i ≤ j.val → s.clipboard_lengths j = 0) :
    save_loop env s fuel i st = some st := by
  induction fuel generalizing i with
  | zero => rfl
  | succ n ih =>
    unfold save_loop
    by_cases hi : i < 100
    · have hi1 : i + 1 < 100 := by omega
      rw [if_pos hi, dif_pos hi1]
      have hp : save_pair env s i hi1 st = some st := by
        unfold save_pair
        rw [hz ⟨i, hi⟩ (le_refl i), hz ⟨i + 1, hi1⟩ (by simp)]
        rfl
      rw [hp]
      exact ih (i + 2) (by omega) (fun j hj => hz j (by omega))
    · rw [if_neg hi]

/-- What save publishes for the pair 0 of the store holding `00 41` and `42 00`,
whatever follows the buffers in memory and whatever `buffer2` held: four bytes
that start with `42 00`. -/
theorem save_binary_entries (env : SaveEnv) (ds : DS) :
    ∃ ds1 rest, sef_cb_lu_state_save binary_entries env ds = some (OK, ds1) ∧
      ds1.clipboard 0 = some (66 :: 0 :: rest) ∧ rest.length = 2 := by
  have hidle : ∀ st, save_loop env binary_entries 49 2 st = some st := by
    intro st
    apply save_loop_idle env binary_entries 49 2 st (by decide)
    intro j hj
    have e0 : j ≠ 0 := by
      intro e
      rw [e] at hj
      simp at hj
    have e1 : j ≠ 1 := by
      intro e
      rw [e] at hj
      simp at hj
    simp [binary_entries, Function.update_noteq e0, Function.update_noteq e1]
  have hlen : (stack_buffer (2 * MAX_LENGTH_ENTRY + 1) env.buffer2).length = 401 := by
    rw [stack_buffer_length]
    rfl
  have hs0 : c_string env ⟨0, by decide⟩ (binary_entries.clipboard ⟨0, by decide⟩) = [] := by
    simp [binary_entries, c_string]
  have hs1 : c_string env ⟨1, by decide⟩ (binary_entries.clipboard ⟨1, by decide⟩) = [66] := by
    simp [binary_entries, c_string, List.takeWhile]
  have hl0 : binary_entries.clipboard_lengths ⟨0, by decide⟩ = 2 := by decide
  have hl1 : binary_entries.clipboard_lengths ⟨1, by decide⟩ = 2 := by decide
  unfold sef_cb_lu_state_save
  unfold save_loop
  rw [if_pos (by decide), dif_pos (by decide)]
  unfold save_pair
  simp only [Nat.zero_add, hs0, hs1, hl0, hl1]
  rw [if_pos (by decide)]
  unfold sprintf_pair
  simp only [List.nil_append, List.singleton_append, List.length_cons, List.length_nil, hlen]
  rw [if_pos (by decide)]
  simp only []
  rw [if_pos (by simp [List.length_drop, hlen])]
  simp only [hidle]
  refine ⟨_, ((stack_buffer (2 * MAX_LENGTH_ENTRY + 1) env.buffer2).drop 2).take 2, rfl, ?_, ?_⟩
  · simp [ds_publish_mem]
  · simp [List.length_take, List.length_drop, hlen]

/-- C14: evaluation at the failing inputs.  For the store whose slots 0 and 1
hold `00 41` and `42 00` (lengths 2 and 2), the buffer published under the key
of pair 0 has four bytes that start with `42 00`, not `00 41 42 00`: the `%s`
conversions stop at the NUL bytes.  For the store whose slot 0 is empty and
whose slot 1 holds `B`, the one byte published is the opening bracket of the
text `(null)` the C library prints for the empty slot. -/
theorem save_publishes_strings_not_bytes (env : SaveEnv) (ds : DS) :
    binary_entries.clipboard 0 = some [0, 65] ∧ binary_entries.clipboard 1 = some [66, 0] ∧
    (∃ ds1 rest, sef_cb_lu_state_save binary_entries env ds = some (OK, ds1) ∧
      ds1.clipboard 0 = some (66 :: 0 :: rest) ∧ rest.length = 2) ∧
    (∃ ds1, sef_cb_lu_state_save right_entry_only plain_save_env empty_ds = some (OK, ds1) ∧
      ds1.clipboard 0 = some [40]) :=
  ⟨by decide, by decide, save_binary_entries env ds, _, rfl, by decide⟩

/-- C16: evaluation at the failing input.  From the fresh store, every slot is
selected and written in turn, then the control call with code 100 is made: the
run ends with all 100 slots occupied, the counter at 100 and `current_index`
equal to -1. -/
theorem cursor_leaves_range_when_full :
    ∃ s, run empty_store (fill_slots 100 ++ [Request.ioctl 100]) = some s ∧
      s.number_of_active_entries = 100 ∧ occupied s.clipboard = 100 ∧
      s.current_index = -1 :=
  ⟨_, rfl, by decide, by decide, by decide⟩

/-- C20: evaluation at the failing inputs.  From the fresh store, slot 0 is
selected and written, then a second write into it fails, once because `malloc`
returns `NULL` and once because the transfer returns an error: in both runs slot
0 ends up empty while its recorded length is still 1. -/
theorem failed_overwrite_leaves_stale_length :
    (∃ s, run empty_store
        [Request.ioctl 0, Request.write [65] true OK, Request.write [66] false OK] = some s ∧
      s.clipboard 0 = none ∧ s.clipboard_lengths 0 = 1) ∧
    (∃ s, run empty_store
        [Request.ioctl 0, Request.write [65] true OK, Request.write [66] true (-14)] = some s ∧
      s.clipboard 0 = none ∧ s.clipboard_lengths 0 = 1) :=
  ⟨⟨_, rfl, by decide, by decide⟩, ⟨_, rfl, by decide, by decide⟩⟩

/-! ## Invariants of the request loop -/

theorem counter_in_range_step (s : Store) (r : Request) (res : Int × Store)
    (hinv : counter_in_range s) (h : dispatch s r = some res) : counter_in_range res.2 := by
  unfold counter_in_range at hinv ⊢
  cases r with
  | dev_open =>
    have e := (Option.some.inj h).symm
    subst e
    exact hinv
  | dev_close =>
    have e := (Option.some.inj h).symm
    subst e
    exact hinv
  | ioctl request =>
    have e := (Option.some.inj h).symm
    subst e
    rw [(clipboard_ioctl_frame s request).2.2]
    exact hinv
  | write p malloc_ok copy_ret =>
    rcases clipboard_write_result s p malloc_ok copy_ret res h with
      e | ⟨k, _, e⟩ | ⟨k, _, _, e⟩ | ⟨k, _, hc, _, e⟩
    · subst e
      exact hinv
    · subst e
      exact hinv
    · subst e
      exact hinv
    · subst e
      simp only []
      omega
  | read size copy_ret =>
    simp only [dispatch, Option.map_eq_some'] at h
    obtain ⟨res0, hread, hres⟩ := h
    subst hres
    rcases clipboard_read_result s size copy_ret res0 hread with
      e | ⟨_, e⟩ | ⟨k, _, hpos, _, e⟩
    · subst e
      exact hinv
    · subst e
      exact hinv
    · simp only [e]
      omega

theorem counter_in_range_run (rs : List Request) (s s1 : Store) (hinv : counter_in_range s)
    (h : run s rs = some s1) : counter_in_range s1 := by
  induction rs generalizing s with
  | nil =>
    have e := (Option.some.inj h).symm
    subst e
    exact hinv
  | cons r rs ih =>
    unfold run at h
    cases hd : dispatch s r with
    | none =>
      rw [hd] at h
      exact absurd h (by simp)
    | some res =>
      rw [hd] at h
      exact ih res.2 (counter_in_range_step s r res hinv hd) h

theorem lengths_bounded_step (s : Store) (r : Request) (res : Int × Store)
    (hinv : lengths_bounded s) (h : dispatch s r = some res) : lengths_bounded res.2 := by
  unfold lengths_bounded at hinv ⊢
  cases r with
  | dev_open =>
    have e := (Option.some.inj h).symm
    subst e
    exact hinv
  | dev_close =>
    have e := (Option.some.inj h).symm
    subst e
    exact hinv
  | ioctl request =>
    have e := (Option.some.inj h).symm
    subst e
    rw [(clipboard_ioctl_frame s request).2.1]
    exact hinv
  | write p malloc_ok copy_ret =>
    rcases clipboard_write_result s p malloc_ok copy_ret res h with
      e | ⟨k, _, e⟩ | ⟨k, _, _, e⟩ | ⟨k, _, _, hp, e⟩
    · subst e
      exact hinv
    · subst e
      exact hinv
    · subst e
      exact hinv
    · subst e
      intro j
      simp only []
      by_cases hj : j = k
      · subst hj
        rw [Function.update_same]
        omega
      · rw [Function.update_noteq hj]
        exact hinv j
  | read size copy_ret =>
    simp only [dispatch, Option.map_eq_some'] at h
    obtain ⟨res0, hread, hres⟩ := h
    subst hres
    rcases clipboard_read_result s size copy_ret res0 hread with
      e | ⟨_, e⟩ | ⟨k, _, _, _, e⟩
    · subst e
      exact hinv
    · subst e
      exact hinv
    · simp only [e]
      intro j
      by_cases hj : j = k
      · subst hj
        rw [Function.update_same]
        omega
      · rw [Function.update_noteq hj]
        exact hinv j

theorem lengths_bounded_run (rs : List Request) (s s1 : Store) (hinv : lengths_bounded s)
    (h : run s rs = some s1) : lengths_bounded s1 := by
  induction rs generalizing s with
  | nil =>
    have e := (Option.some.inj h).symm
    subst e
    exact hinv
  | cons r rs ih =>
    unfold run at h
    cases hd : dispatch s r with
    | none =>
      rw [hd] at h
      exact absurd h (by simp)
    | some res =>
      rw [hd] at h
      exact ih res.2 (lengths_bounded_step s r res hinv hd) h

/-- C17: in every state the request loop reaches from a fresh start, whatever
the allocated arrays contain, by any sequence of open, close, write, read and
control requests with any allocation and transfer outcomes,
`number_of_active_entries` lies in [0, 100]. -/
theorem counter_stays_in_range (raw : RawMemory) (env : RestoreEnv) (ds ds0 : DS) (ret : Int)
    (announced : Bool) (s0 s : Store) (rs : List Request)
    (hinit : sef_cb_init InitType.SEF_INIT_FRESH raw env ds = some (ret, s0, ds0, announced))
    (hrun : run s0 rs = some s) :
    0 ≤ s.number_of_active_entries ∧ s.number_of_active_entries ≤ 100 := by
  rw [sef_cb_init_fresh] at hinit
  have e : s0 = { number_of_active_entries := 0, current_index := 0,
                  clipboard := raw.clipboard, clipboard_lengths := raw.clipboard_lengths } :=
    (congrArg (fun x => x.2.1) (Option.some.inj hinit)).symm
  subst e
  exact counter_in_range_run rs _ s ⟨by simp, by simp⟩ hrun

/-- Witness of C17: a fresh start on memory with old content, then a write, a
failing read, a read and a read refused as `Empty`. -/
theorem counter_stays_in_range_witness :
    ∃ s, run { number_of_active_entries := 0, current_index := 0,
               clipboard := dirty_memory.clipboard,
               clipboard_lengths := dirty_memory.clipboard_lengths }
        [Request.dev_open, Request.ioctl 3, Request.write hello true OK,
         Request.read 10 (-14), Request.read 10 OK, Request.read 10 OK,
         Request.dev_close] = some s ∧
      0 ≤ s.number_of_active_entries ∧ s.number_of_active_entries ≤ 100 := by
  have h : ∃ s, run { number_of_active_entries := 0, current_index := 0,
                      clipboard := dirty_memory.clipboard,
                      clipboard_lengths := dirty_memory.clipboard_lengths }
      [Request.dev_open, Request.ioctl 3, Request.write hello true OK,
       Request.read 10 (-14), Request.read 10 OK, Request.read 10 OK,
       Request.dev_close] = some s := ⟨_, rfl⟩
  obtain ⟨s, hs⟩ := h
  exact ⟨s, hs,
    counter_stays_in_range dirty_memory plain_restore_env empty_ds empty_ds OK true _ s _
      (sef_cb_init_fresh dirty_memory plain_restore_env empty_ds) hs⟩

/-- From a fresh start on zero-filled arrays every recorded length stays in
[0, 200], so the two lengths of a pair add up to at most 400, the size of
`buffer2` in restore. -/
theorem lengths_bounded_from_zero_memory (env : RestoreEnv) (ds ds0 : DS) (ret : Int)
    (announced : Bool) (s0 s : Store) (rs : List Request)
    (hinit : sef_cb_init InitType.SEF_INIT_FRESH zero_memory env ds =
      some (ret, s0, ds0, announced))
    (hrun : run s0 rs = some s) :
    (∀ j, 0 ≤ s.clipboard_lengths j ∧ s.clipboard_lengths j ≤ (MAX_LENGTH_ENTRY : Int)) ∧
    ∀ (i : Nat) (h : i + 1 < 100),
      s.clipboard_lengths ⟨i, by omega⟩ + s.clipboard_lengths ⟨i + 1, h⟩ ≤
        ((2 * MAX_LENGTH_ENTRY : Nat) : Int) ∧
      (s.clipboard_lengths ⟨i, by omega⟩ + s.clipboard_lengths ⟨i + 1, h⟩).toNat ≤
        (stack_buffer (2 * MAX_LENGTH_ENTRY) env.buffer2).length := by
  rw [sef_cb_init_fresh] at hinit
  have e : s0 = { number_of_active_entries := 0, current_index := 0,
                  clipboard := zero_memory.clipboard,
                  clipboard_lengths := zero_memory.clipboard_lengths } :=
    (congrArg (fun x => x.2.1) (Option.some.inj hinit)).symm
  subst e
  have hb : lengths_bounded s := by
    apply lengths_bounded_run rs _ s _ hrun
    intro j
    simp [zero_memory]
  unfold lengths_bounded at hb
  simp only [MAX_LENGTH_ENTRY, stack_buffer_length]
  refine ⟨fun j => ⟨(hb j).1, by have := (hb j).2; push_cast; omega⟩, ?_⟩
  intro i h
  have h1 := hb ⟨i, by omega⟩
  have h2 := hb ⟨i + 1, h⟩
  refine ⟨by push_cast; omega, by omega⟩

/-- C18: evaluation at the failing input.  On a fresh start where `malloc`
returns memory whose first `int` is 1000, the recorded length of slot 0 is 1000
before any request, above `MAX_LENGTH_ENTRY`, and the lengths of the pair 0, 1
add up to more than the 400 bytes of `buffer2`; a control call and a write to
another slot later, it still is. -/
theorem fresh_start_length_out_of_bounds :
    ∃ s0 ds s, sef_cb_init InitType.SEF_INIT_FRESH oversized_memory plain_restore_env empty_ds =
        some (OK, s0, ds, true) ∧
      s0.clipboard_lengths 0 = 1000 ∧
      ¬ (s0.clipboard_lengths 0 ≤ (MAX_LENGTH_ENTRY : Int)) ∧
      ¬ (s0.clipboard_lengths 0 + s0.clipboard_lengths 1 ≤ ((2 * MAX_LENGTH_ENTRY : Nat) : Int)) ∧
      run s0 [Request.ioctl 5, Request.write hello true OK] = some s ∧
      s.clipboard_lengths 0 = 1000 :=
  ⟨_, _, _, sef_cb_init_fresh oversized_memory plain_restore_env empty_ds, by decide, by decide,
   by decide, rfl, by decide⟩

theorem kernel_results_cons (r : Request) (rs : List Request)
    (h : kernel_results (r :: rs) = true) :
    kernel_results [r] = true ∧ kernel_results rs = true := by
  cases r with
  | dev_open => exact ⟨rfl, h⟩
  | dev_close => exact ⟨rfl, h⟩
  | ioctl request => exact ⟨rfl, h⟩
  | write p malloc_ok copy_ret =>
    simp only [kernel_results, Bool.and_eq_true] at h ⊢
    exact ⟨⟨h.1, trivial⟩, h.2⟩
  | read size copy_ret =>
    simp only [kernel_results, Bool.and_eq_true] at h ⊢
    exact ⟨⟨h.1, trivial⟩, h.2⟩

/-- One request moves the counter by one up when it is a write returning a
non-negative value, by one down when it is a read returning a non-negative
value, and not at all otherwise. -/
theorem counter_balance_step (s : Store) (r : Request) (res : Int × Store)
    (hb : lengths_bounded s) (hk : kernel_results [r] = true) (h : dispatch s r = some res) :
    res.2.number_of_active_entries =
      s.number_of_active_entries + ((successful_writes s [r] : Nat) : Int)
        - ((successful_reads s [r] : Nat) : Int) := by
  cases r with
  | dev_open =>
    simp only [successful_writes, successful_reads, h]
    have e := (Option.some.inj h).symm
    subst e
    simp [clipboard_open]
  | dev_close =>
    simp only [successful_writes, successful_reads, h]
    have e := (Option.some.inj h).symm
    subst e
    simp [clipboard_close]
  | ioctl request =>
    simp only [successful_writes, successful_reads, h]
    have e := (Option.some.inj h).symm
    subst e
    rw [(clipboard_ioctl_frame s request).2.2]
    simp
  | write p malloc_ok copy_ret =>
    simp only [successful_writes, successful_reads, h]
    simp only [kernel_results, Bool.and_eq_true, decide_eq_true_eq] at hk
    rcases clipboard_write_result s p malloc_ok copy_ret res h with
      e | ⟨k, _, e⟩ | ⟨k, _, hne, e⟩ | ⟨k, _, _, _, e⟩
    · subst e
      simp
    · subst e
      simp
    · subst e
      have hneg : ¬ (0 ≤ copy_ret) := by
        have : copy_ret ≠ 0 := hne
        omega
      simp [hneg]
    · subst e
      simp
  | read size copy_ret =>
    simp only [successful_writes, successful_reads, h]
    simp only [kernel_results, Bool.and_eq_true, decide_eq_true_eq] at hk
    simp only [dispatch, Option.map_eq_some'] at h
    obtain ⟨res0, hread, hres⟩ := h
    subst hres
    rcases clipboard_read_result s size copy_ret res0 hread with
      e | ⟨hne, e⟩ | ⟨k, _, _, hret, e⟩
    · subst e
      simp
    · subst e
      have hneg : ¬ (0 ≤ copy_ret) := by
        have : copy_ret ≠ 0 := hne
        omega
      simp [hneg]
    · have hl := hb k
      have hr : res0.1 = s.clipboard_lengths k := by
        rw [hret]
        exact int_roundtrip _ (by omega) (by omega)
      have hnn : 0 ≤ res0.1 := by omega
      simp only [e, hnn, if_true]
      push_cast
      omega

theorem successful_writes_cons (s : Store) (r : Request) (rs : List Request) (res : Int × Store)
    (h : dispatch s r = some res) :
    successful_writes s (r :: rs) = successful_writes s [r] + successful_writes res.2 rs := by
  simp only [successful_writes, h]
  omega

theorem successful_reads_cons (s : Store) (r : Request) (rs : List Request) (res : Int × Store)
    (h : dispatch s r = some res) :
    successful_reads s (r :: rs) = successful_reads s [r] + successful_reads res.2 rs := by
  simp only [successful_reads, h]
  omega

theorem counter_balance_run (rs : List Request) (s s1 : Store) (hb : lengths_bounded s)
    (hk : kernel_results rs = true) (h : run s rs = some s1) :
    s1.number_of_active_entries =
      s.number_of_active_entries + ((successful_writes s rs : Nat) : Int)
        - ((successful_reads s rs : Nat) : Int) := by
  induction rs generalizing s with
  | nil =>
    have e := (Option.some.inj h).symm
    subst e
    simp [successful_writes, successful_reads]
  | cons r rs ih =>
    unfold run at h
    cases hd : dispatch s r with
    | none =>
      rw [hd] at h
      exact absurd h (by simp)
    | some res =>
      rw [hd] at h
      obtain ⟨hk1, hk2⟩ := kernel_results_cons r rs hk
      have hstep := counter_balance_step s r res hb hk1 hd
      have hrest := ih res.2 (lengths_bounded_step s r res hb hd) hk2 h
      rw [successful_writes_cons s r rs res hd, successful_reads_cons s r rs res hd]
      push_cast
      omega

/-- C19: along every sequence of requests run from a fresh start on zero-filled
arrays, the transfers returning `OK` or a negative errno,
`number_of_active_entries` equals the number of writes that returned success
minus the number of reads that returned success, whichever slots they
targeted; hence once 100 more writes than reads have succeeded, every further
write returns -1 and changes nothing, however few slots are occupied. -/
theorem counter_is_write_read_balance (rs : List Request) (s : Store)
    (hk : kernel_results rs = true) (hrun : run empty_store rs = some s) :
    s.number_of_active_entries =
      ((successful_writes empty_store rs : Nat) : Int)
        - ((successful_reads empty_store rs : Nat) : Int) ∧
    (successful_reads empty_store rs + 100 ≤ successful_writes empty_store rs →
      ∀ (p : List Byte) (malloc_ok : Bool) (copy_ret : Int),
        clipboard_write s p malloc_ok copy_ret = some (-1, s)) := by
  have hb : lengths_bounded empty_store := by
    intro j
    simp [empty_store]
  have hbal := counter_balance_run rs empty_store s hb hk hrun
  have h0 : empty_store.number_of_active_entries = 0 := rfl
  rw [h0] at hbal
  refine ⟨by omega, ?_⟩
  intro hge p malloc_ok copy_ret
  exact clipboard_write_full s p malloc_ok copy_ret (by omega)

/-- Witness of C19: slot 0 selected and written 100 times.  The counter is 100
with one slot occupied, and the next write is refused. -/
theorem counter_is_write_read_balance_witness :
    overwritten_store.number_of_active_entries = 100 ∧ occupied overwritten_store.clipboard = 1 ∧
    ∀ (p : List Byte) (malloc_ok : Bool) (copy_ret : Int),
      clipboard_write overwritten_store p malloc_ok copy_ret = some (-1, overwritten_store) :=
  ⟨rfl, by decide, fun p malloc_ok copy_ret =>
    (counter_is_write_read_balance
      (Request.ioctl 0 :: List.replicate 100 (Request.write [65] true OK)) overwritten_store
      (by decide) overwritten_store_reachable).2 (by decide) p malloc_ok copy_ret⟩

end Clipboard
